import Mathlib

/-!
Shallow embedding of the QuizBot core: the line-oriented validator
(`validator.py`, function `validate_and_parse`), the bulk parser
(`parser.py`, functions `normalize_label_to_index`, `split_blocks`,
`parse_bulk`) and the delivery engine (`worker.py`, functions
`_letter_to_index` and `post_sequence`).

Strings are modelled as `List Char` (`Str`); text primitives mirror the
Python string methods restricted to ASCII whitespace/letters/digits, which
is the character set the grammars of this program use.  The regular
expressions of the source are hand-compiled to deterministic matchers over
`List Char`; each matcher carries a comment naming the regex it embeds.
-/

namespace QuizBot

abbrev Str := List Char

/-- Python whitespace for `str.strip` / `\s` (ASCII part). -/
def pyIsSpace (c : Char) : Bool :=
  c = ' ' ∨ c = '\t' ∨ c = '\n' ∨ c = '\r' ∨ c = '\x0b' ∨ c = '\x0c'

/-- ASCII decimal digit, the `\d` / `[0-9]` class. -/
def pyIsDigit (c : Char) : Bool := '0' ≤ c ∧ c ≤ '9'

/-- ASCII letter, modelling `str.isalpha` for the ASCII inputs of the grammar. -/
def pyIsAlphaChar (c : Char) : Bool := ('A' ≤ c ∧ c ≤ 'Z') ∨ ('a' ≤ c ∧ c ≤ 'z')

/-- The `[A-Za-z0-9]` class of `OPTION_RE` and `ANSWER_RE`. -/
def pyIsAlnum (c : Char) : Bool := pyIsAlphaChar c ∨ pyIsDigit c

/-- ASCII `str.upper` on one character. -/
def pyToUpper (c : Char) : Char :=
  if 'a' ≤ c ∧ c ≤ 'z' then Char.ofNat (c.toNat - 32) else c

/-- ASCII `str.lower` on one character (used only to compare diagnostics
case-insensitively in counterexamples). -/
def pyToLower (c : Char) : Char :=
  if 'A' ≤ c ∧ c ≤ 'Z' then Char.ofNat (c.toNat + 32) else c

def lowerStr (s : Str) : Str := s.map pyToLower

/-- Python `str.lstrip()`. -/
def pyLStrip (s : Str) : Str := s.dropWhile pyIsSpace

/-- Python `str.rstrip()`. -/
def pyRStrip (s : Str) : Str := (s.reverse.dropWhile pyIsSpace).reverse

/-- Python `str.strip()`. -/
def pyStrip (s : Str) : Str := pyRStrip (pyLStrip s)

/-- Python `needle in haystack` substring test. -/
def containsSub (hay needle : Str) : Bool :=
  if needle.isPrefixOf hay then true
  else match hay with
    | [] => false
    | _ :: t => containsSub t needle

/-- Python `str.splitlines()` for the `\n`, `\r\n` and `\r` line endings
(no trailing empty line for a trailing terminator; `[]` on empty input). -/
def pySplitLines : Str → List Str
  | [] => []
  | s => splitGo s []
where
  splitGo : Str → Str → List Str
    | [], cur => if cur = [] then [] else [cur.reverse]
    | '\r' :: '\n' :: rest, cur => cur.reverse :: splitGo rest []
    | '\r' :: rest, cur => cur.reverse :: splitGo rest []
    | '\n' :: rest, cur => cur.reverse :: splitGo rest []
    | c :: rest, cur => splitGo rest (c :: cur)

/-- `text.replace('\r\n', '\n').replace('\r', '\n')` from `parse_bulk`. -/
def normNewlines : Str → Str
  | '\r' :: '\n' :: rest => '\n' :: normNewlines rest
  | '\r' :: rest => '\n' :: normNewlines rest
  | c :: rest => c :: normNewlines rest
  | [] => []

/-- Python `str.split(sep)` for a one-character separator: always returns at
least one piece; `""` yields `[""]`. -/
def splitOnChar (sep : Char) : Str → List Str
  | [] => [[]]
  | c :: rest =>
    if c = sep then [] :: splitOnChar sep rest
    else match splitOnChar sep rest with
      | h :: t => (c :: h) :: t
      | [] => [[c]]

/-- Python `sep.join(xs)`. -/
def joinWith (sep : Str) (xs : List Str) : Str := List.intercalate sep xs

/-- Python `int(s)` on an all-digit string. -/
def digitsToNat (s : Str) : Nat :=
  s.foldl (fun a c => a * 10 + (c.toNat - '0'.toNat)) 0

/-- Decimal rendering of a natural number, for the `f"... {n} ..."`
diagnostic messages. -/
def natStr (n : Nat) : Str := Nat.toDigits 10 n

/-- Case-insensitive prefix test, for the `re.IGNORECASE` keyword matches. -/
def startsCI : Str → Str → Bool
  | [], _ => true
  | _ :: _, [] => false
  | p :: ps, c :: cs => pyToUpper p = pyToUpper c && startsCI ps cs

def allSpace (s : Str) : Bool := s.all pyIsSpace

/-! ## validator.py: data model -/

/-- One question block of `validate_and_parse` (the `q_obj` dict). -/
structure QObj where
  index : Nat
  raw_question : Str
  /-- insertion-ordered label → text mapping (the Python dict). -/
  options : List (Char × Str)
  ans : Option Str
  exp : Option Str
  errors : List Str
  warnings : List Str
deriving DecidableEq

/-- The result dict of `validate_and_parse`. -/
structure VResult where
  ok : Bool
  errors : List Str
  warnings : List Str
  des : Option Str
  questions : List QObj
deriving DecidableEq

/-- `d[k] = v` on a Python dict: overwrite in place, else append. -/
def dictInsert (d : List (Char × Str)) (k : Char) (v : Str) : List (Char × Str) :=
  match d with
  | [] => [(k, v)]
  | (k', v') :: rest => if k' = k then (k, v) :: rest else (k', v') :: dictInsert rest k v

/-- `d.get(k)` on a Python dict. -/
def dictGet? (d : List (Char × Str)) (k : Char) : Option Str :=
  match d with
  | [] => none
  | (k', v) :: rest => if k' = k then some v else dictGet? rest k

/-- `k in d` on a Python dict. -/
def dictMem (d : List (Char × Str)) (k : Char) : Bool :=
  (dictGet? d k).isSome

/-- `list(d.keys())` in insertion order. -/
def dictKeys (d : List (Char × Str)) : List Char := d.map Prod.fst

/-- `sorted(d.keys())`. -/
def sortedKeys (d : List (Char × Str)) : List Char :=
  List.insertionSort (fun a b : Char => a ≤ b) (dictKeys d)

/-! ## validator.py: regex matchers

`_des_re = ^DES:\s*(.*)$`, `_q_re = ^Q:\s*(.*)$`, `_exp_re = ^EXP:\s*(.*)$`,
`_ans_re = ^ANS:\s*(\S+)\s*$`,
`_option_label_re = ^([A-Z]):\s*(?:\((?:[A-Z])\))?\s*(.*)$` — all
case-sensitive and applied to already-stripped lines; each matcher returns
the captured group(s). -/

/-- `_des_re.match(ln)`: returns group 1. -/
def desMatch : Str → Option Str
  | 'D' :: 'E' :: 'S' :: ':' :: rest => some (rest.dropWhile pyIsSpace)
  | _ => none

/-- `_q_re.match(ln)`: returns group 1. -/
def qMatch : Str → Option Str
  | 'Q' :: ':' :: rest => some (rest.dropWhile pyIsSpace)
  | _ => none

/-- `_exp_re.match(ln)`: returns group 1. -/
def expMatch : Str → Option Str
  | 'E' :: 'X' :: 'P' :: ':' :: rest => some (rest.dropWhile pyIsSpace)
  | _ => none

/-- `_ans_re.match(ln)`: a single non-space token after `ANS:`, nothing but
whitespace after it. -/
def ansMatch : Str → Option Str
  | 'A' :: 'N' :: 'S' :: ':' :: rest =>
    let r1 := rest.dropWhile pyIsSpace
    let tok := r1.takeWhile (fun c => !(pyIsSpace c))
    let r2 := r1.dropWhile (fun c => !(pyIsSpace c))
    if tok ≠ [] ∧ r2.dropWhile pyIsSpace = [] then some tok else none
  | _ => none

/-- `_option_label_re.match(ln)`: an uppercase label, `:`, an optional
`(X)` decoration that is skipped, and the remaining text as group 2. -/
def optLabelMatch : Str → Option (Char × Str)
  | c :: ':' :: rest =>
    if 'A' ≤ c ∧ c ≤ 'Z' then
      let r1 := rest.dropWhile pyIsSpace
      let g2 :=
        match r1 with
        | '(' :: d :: ')' :: r2 => if 'A' ≤ d ∧ d ≤ 'Z' then r2.dropWhile pyIsSpace else r1
        | _ => r1
      some (c, g2)
    else none
  | _ => none

/-! ## validator.py: diagnostic message texts -/

def msgDesInsideLine (lineNo : Nat) : Str :=
  "⚠️ DES found inside question block (line ".toList ++ natStr lineNo ++ ")".toList

def msgDesInsideQ (qi : Nat) : Str :=
  "⚠️ DES found inside question block (Question ".toList ++ natStr qi ++ ")".toList

def msgAnsSingle (qi : Nat) : Str :=
  "⚠️ ANS must be a single letter (Question ".toList ++ natStr qi ++ ")".toList

def msgExpAfterAns (qi : Nat) : Str :=
  "⚠️ EXP must come after ANS (Question ".toList ++ natStr qi ++ ")".toList

def msgUnexpected (qi lineNo : Nat) : Str :=
  "⚠️ Unexpected line inside question block (Question ".toList ++ natStr qi
    ++ ", line ".toList ++ natStr lineNo ++ ")".toList

def msgMissingOpt (qi : Nat) (lbl : Char) : Str :=
  "⚠️ Question ".toList ++ natStr qi ++ " missing option ".toList ++ [lbl]

def msgMissingAns (qi : Nat) : Str :=
  "⚠️ Missing ANS in Question ".toList ++ natStr qi

def msgAnsMismatch (a : Str) (qi : Nat) : Str :=
  "⚠️ ANS \"".toList ++ a ++ "\" does not match any option in Question ".toList ++ natStr qi

def msgNoQuestions : Str :=
  "⚠️ No questions found (no Q: blocks).".toList

def msgAnsOutside (lineNo : Nat) : Str :=
  "⚠️ ANS found outside any question block (line ".toList ++ natStr lineNo ++ ")".toList

def msgExpOutside (lineNo : Nat) : Str :=
  "⚠️ EXP found outside any question block (line ".toList ++ natStr lineNo ++ ")".toList

/-! ## validator.py: the parsing loops -/

/-- `"A" == one of the dict's keys`: the `q_obj["ans"] not in q_obj["options"]`
membership test; keys are one-letter strings, so a stored multi-character
`ans` never matches. -/
def ansInOptions (a : Str) (d : List (Char × Str)) : Bool :=
  match a with
  | [c] => dictMem d c
  | _ => false

/-- Outcome of one iteration of the inner block loop of `validate_and_parse`
(source lines 106-172). -/
inductive QStep where
  /-- a new `Q:` line: break out of the block without consuming the line -/
  | brk : QStep
  /-- line consumed; updated block state and updated `result["ok"] = False` flag -/
  | cont (q : QObj) (okFalse : Bool) : QStep
  /-- models the `sorted(...)[-1]` indexing raising on an empty list
  (guarded in the source, so unreachable) -/
  | err : QStep
deriving DecidableEq

/-- Body of the inner `while` loop of `validate_and_parse`, for one stripped
line `cur` at (0-based) position `i`; `okF` records whether `result["ok"]`
has been set to `False` during this block. -/
def qStep (cur : Str) (i : Nat) (q : QObj) (okF : Bool) : QStep :=
  if cur = [] then .cont q okF
  else if (qMatch cur).isSome then .brk
  else if (desMatch cur).isSome then
    .cont { q with errors := q.errors ++ [msgDesInsideQ q.index] } true
  else match ansMatch cur with
  | some tok =>
    if (pyStrip tok).length = 1 ∧ (pyStrip tok).all pyIsAlphaChar then
      .cont { q with ans := some ((pyStrip tok).map pyToUpper) } okF
    else
      .cont { q with errors := q.errors ++ [msgAnsSingle q.index], ans := some (pyStrip tok) } true
  | none => match expMatch cur with
    | some g =>
      if q.ans = none then
        .cont { q with errors := q.errors ++ [msgExpAfterAns q.index],
                       exp := some (pyStrip g) } true
      else
        .cont { q with exp := some (pyStrip g) } okF
    | none => match optLabelMatch cur with
      | some (lbl, g2) =>
        .cont { q with options := dictInsert q.options (pyToUpper lbl) (pyStrip g2) } okF
      | none =>
        if q.options = [] then
          .cont { q with warnings := q.warnings ++ [msgUnexpected q.index (i + 1)] } okF
        else match (sortedKeys q.options).getLast? with
          | some lastLbl =>
            .cont { q with options := (dictInsert q.options lastLbl
              (if (dictGet? q.options lastLbl).getD [] = [] then cur
               else ((dictGet? q.options lastLbl).getD []) ++ ' ' :: cur)) } okF
          | none => .err

/-- State on leaving the inner block loop: the finished `q_obj`, the
`ok`-cleared flag, the unconsumed lines and the next line number. -/
structure QLoopOut where
  q : QObj
  okFalse : Bool
  rest : List Str
  lineNo : Nat
deriving DecidableEq

/-- The inner `while i < n` loop of `validate_and_parse`: runs `qStep` until
a new `Q:` line or end of input. -/
def qLoop : List Str → Nat → QObj → Bool → Option QLoopOut
  | [], i, q, okF => some ⟨q, okF, [], i⟩
  | ln :: rest, i, q, okF =>
    match qStep (pyStrip ln) i q okF with
    | .brk => some ⟨q, okF, ln :: rest, i⟩
    | .cont q' okF' => qLoop rest (i + 1) q' okF'
    | .err => none

/-- One step of the post-block checks: `if lbl not in q_obj["options"]`
(source lines 176-180). -/
def reqLabelCheck (q : QObj) (okF : Bool) (lbl : Char) : QObj × Bool :=
  if dictMem q.options lbl then (q, okF)
  else ({ q with errors := q.errors ++ [msgMissingOpt q.index lbl] }, true)

/-- The `for lbl in required_labels` loop of the post-block checks. -/
def reqFold (lbls : List Char) (q : QObj) (okF : Bool) : QObj × Bool :=
  lbls.foldl (fun (p : QObj × Bool) lbl => reqLabelCheck p.1 p.2 lbl) (q, okF)

/-- The `ANS` presence and membership checks run after the required-label
loop (source lines 181-188). -/
def finalizeAns (p : QObj × Bool) : QObj × Bool :=
  match p.1.ans with
  | none => ({ p.1 with errors := p.1.errors ++ [msgMissingAns p.1.index] }, true)
  | some a =>
    if ansInOptions a p.1.options then p
    else ({ p.1 with errors := p.1.errors ++ [msgAnsMismatch a p.1.index] }, true)

/-- The after-block checks of `validate_and_parse` (source lines 174-189):
required labels A-D, then the `ANS` presence and membership checks. -/
def finalizeQ (q : QObj) (okF : Bool) : QObj × Bool :=
  finalizeAns (reqFold ['A', 'B', 'C', 'D'] q okF)

/-- The outer `while i < n` loop of `validate_and_parse`, with explicit fuel
(the source loop advances through the line list; fuel `lines.length + 1`
suffices, which theorem `validator_total` proves). -/
def vLoop : Nat → List Str → Nat → Bool → VResult → Option VResult
  | 0, _, _, _, _ => none
  | _ + 1, [], _, _, acc => some acc
  | fuel + 1, ln :: rest, i, seenQ, acc =>
    if pyStrip ln = [] then vLoop fuel rest (i + 1) seenQ acc
    else match desMatch (pyStrip ln) with
    | some g =>
      if seenQ then
        vLoop fuel rest (i + 1) seenQ
          { acc with errors := acc.errors ++ [msgDesInsideLine (i + 1)], ok := false }
      else
        vLoop fuel rest (i + 1) seenQ { acc with des := some (pyStrip g) }
    | none => match qMatch (pyStrip ln) with
      | some g =>
        match qLoop rest (i + 1)
            { index := acc.questions.length + 1, raw_question := pyStrip g,
              options := [], ans := none, exp := none, errors := [], warnings := [] }
            false with
        | none => none
        | some out =>
          vLoop fuel out.rest out.lineNo true
            { acc with ok := acc.ok && !(finalizeQ out.q out.okFalse).2,
                       questions := acc.questions ++ [(finalizeQ out.q out.okFalse).1] }
      | none =>
        if (ansMatch (pyStrip ln)).isSome then
          vLoop fuel rest (i + 1) seenQ { acc with warnings := acc.warnings ++ [msgAnsOutside (i + 1)] }
        else if (expMatch (pyStrip ln)).isSome then
          vLoop fuel rest (i + 1) seenQ { acc with warnings := acc.warnings ++ [msgExpOutside (i + 1)] }
        else
          vLoop fuel rest (i + 1) seenQ acc

/-- The `'Eg('` ignore-marker (case-sensitive substring test of
`_strip_eg_lines`). -/
def egMarker : Str := "Eg(".toList

def initV : VResult := { ok := true, errors := [], warnings := [], des := none, questions := [] }

/-- The final no-questions check of `validate_and_parse` (source lines
204-207). -/
def finalCheck (o : Option VResult) : Option VResult :=
  match o with
  | none => none
  | some r =>
    if r.questions.length = 0 then
      some { r with ok := false, errors := r.errors ++ [msgNoQuestions] }
    else some r

/-- `validate_and_parse` after line splitting: rstrip every line, drop the
`Eg(` lines, run the main loop, then the final no-questions check. -/
def validateLines (lines0 : List Str) : Option VResult :=
  finalCheck (vLoop
    (((lines0.map pyRStrip).filter (fun ln => !(containsSub ln egMarker))).length + 1)
    ((lines0.map pyRStrip).filter (fun ln => !(containsSub ln egMarker)))
    0 false initV)

/-- `validator.validate_and_parse(raw_text)`; `none` would model an uncaught
exception or fuel exhaustion, and never occurs (theorem `validator_total`). -/
def validate_and_parse (text : Str) : Option VResult :=
  validateLines (pySplitLines text)

/-! ## parser.py: the bulk `#MSG` / `#Q` parser

`parse_bulk` raises `ParseError` on malformed input; the embedding returns
`Except PErr`.  Each `PErr` constructor names the message of one `raise`
site of the source. -/

/-- The `ParseError` cases of `parse_bulk`, by raise site. -/
inductive PErr where
  /-- `"No blocks found. Use #MSG and #Q blocks."` -/
  | noBlocks : PErr
  /-- `"Missing question text in Q-block #{idx}"` -/
  | missingQuestion (idx : Nat) : PErr
  /-- `"Question in block #{idx} has less than 2 options."` -/
  | tooFewOptions (idx : Nat) : PErr
  /-- `"Invalid ANSWER in block #{idx}: ... does not match options."` -/
  | invalidAnswer (idx : Nat) : PErr
  /-- `"Explanation provided but no ANSWER in block #{idx}. Explanation requires an ANSWER."` -/
  | expWithoutAns (idx : Nat) : PErr
deriving DecidableEq

/-- The action dicts returned by `parse_bulk`. -/
inductive PAction where
  | msg (text : Str) : PAction
  | poll (question : Str) (options : List Str) (answer_index : Option Nat)
      (explanation : Option Str) : PAction
deriving DecidableEq

/-- `BLOCK_START_RE = ^\s*#\s*(MSG|Q\d*|Q)\s*$` (IGNORECASE); `some true`
for a `MSG` tag, `some false` for a `Q` tag. -/
def blockStart (s : Str) : Option Bool :=
  match s.dropWhile pyIsSpace with
  | '#' :: r2 =>
    let r3 := r2.dropWhile pyIsSpace
    if startsCI ['M', 'S', 'G'] r3 ∧ allSpace (r3.drop 3) then some true
    else match r3 with
      | q :: r4 =>
        if (q = 'Q' ∨ q = 'q') ∧ allSpace (r4.dropWhile pyIsDigit) then some false
        else none
      | [] => none
  | _ => none

/-- `OPTION_RE = ^\s*([A-Za-z0-9]+)\)\s*(.+\S)\s*$`: returns the label and
the already-stripped option text (`parse_bulk` strips group 2 wherever it
uses it); the `(.+\S)` part matches exactly when at least two characters
remain after trailing whitespace is removed. -/
def optionMatch (s : Str) : Option (Str × Str) :=
  let r1 := s.dropWhile pyIsSpace
  let label := r1.takeWhile pyIsAlnum
  if label = [] then none
  else match r1.drop label.length with
    | ')' :: r3 => if 2 ≤ (pyRStrip r3).length then some (label, pyStrip r3) else none
    | _ => none

/-- `ANSWER_RE = ^\s*#\s*(ANS|ANSWER)\s*:\s*([A-Za-z0-9]+)\s*$` (IGNORECASE):
returns group 2. -/
def ansTag (s : Str) : Option Str :=
  match s.dropWhile pyIsSpace with
  | '#' :: r2 =>
    let r3 := r2.dropWhile pyIsSpace
    let afterKw : Option Str :=
      if startsCI ['A', 'N', 'S', 'W', 'E', 'R'] r3 then some (r3.drop 6)
      else if startsCI ['A', 'N', 'S'] r3 then some (r3.drop 3)
      else none
    match afterKw with
    | some r4 =>
      match r4.dropWhile pyIsSpace with
      | ':' :: r6 =>
        let r7 := r6.dropWhile pyIsSpace
        let tok := r7.takeWhile pyIsAlnum
        if tok ≠ [] ∧ allSpace (r7.drop tok.length) then some tok else none
      | _ => none
    | none => none
  | _ => none

/-- `EXP_RE = ^\s*#\s*(EXP|EXPLANATION)\s*:\s*(.+)$` (IGNORECASE): returns
the stripped group 2 (`parse_bulk` strips it at once); `.+` requires at
least one character after the colon. -/
def expTag (s : Str) : Option Str :=
  match s.dropWhile pyIsSpace with
  | '#' :: r2 =>
    let r3 := r2.dropWhile pyIsSpace
    let afterKw : Option Str :=
      if startsCI ['E', 'X', 'P', 'L', 'A', 'N', 'A', 'T', 'I', 'O', 'N'] r3 then some (r3.drop 11)
      else if startsCI ['E', 'X', 'P'] r3 then some (r3.drop 3)
      else none
    match afterKw with
    | some r4 =>
      match r4.dropWhile pyIsSpace with
      | ':' :: r6 => if r6 = [] then none else some (pyStrip r6)
      | _ => none
    | none => none
  | _ => none

/-- A small arithmetic fact used for the termination of the block scanners. -/
theorem length_dropWhile_le' {α : Type} (p : α → Bool) (l : List α) :
    (l.dropWhile p).length ≤ l.length := by
  induction l with
  | nil => simp [List.dropWhile]
  | cons a t ih =>
    by_cases h : p a
    · simpa [List.dropWhile, h] using Nat.le_succ_of_le ih
    · simp [List.dropWhile, h]

/-- `split_blocks(text)` after line splitting: group lines under `#MSG` /
`#Q` headers, dropping loose lines outside any block.  Written as a
single pass with the currently open block as accumulator (the source
gathers each block with an inner scan to the next header — same result). -/
def splitBlocksGo : List Str → Option (Bool × List Str) → List (Bool × List Str)
  | [], cur =>
    (match cur with
     | some b => [(b.1, b.2.reverse)]
     | none => [])
  | ln :: rest, cur =>
    match blockStart ln with
    | some bt =>
      match cur with
      | some b => (b.1, b.2.reverse) :: splitBlocksGo rest (some (bt, []))
      | none => splitBlocksGo rest (some (bt, []))
    | none =>
      match cur with
      | some b => splitBlocksGo rest (some (b.1, ln :: b.2))
      | none => splitBlocksGo rest none

def splitBlocks (lines : List Str) : List (Bool × List Str) :=
  splitBlocksGo lines none

/-- The `re.fullmatch(r'\d+', label)` numeric branch of
`normalize_label_to_index` from parser.py: a 1-based index into the
option list. -/
def nliNum (label : Str) (labels : List Str) : Option Nat :=
  if label.all pyIsDigit then
    if 1 ≤ digitsToNat label ∧ digitsToNat label ≤ labels.length then
      some (digitsToNat label - 1)
    else none
  else none

/-- The single-letter branch: `A`-`Z` mapped to its alphabet position. -/
def nliLetter (lab : Str) (labels : List Str) : Option Nat :=
  match lab with
  | [c] =>
    if 'A' ≤ c ∧ c ≤ 'Z' then
      if c.toNat - 'A'.toNat < labels.length then some (c.toNat - 'A'.toNat) else none
    else none
  | _ => none

/-- The fallback loop: compare against `l.split()[0].strip(').:').upper()`
of each option text. -/
def nliFallback (label : Str) (labels : List Str) : Option Nat :=
  labels.findIdx? (fun l =>
    (((((l.dropWhile pyIsSpace).takeWhile (fun c => !(pyIsSpace c))).dropWhile
        (fun c => c = ')' ∨ c = '.' ∨ c = ':')).reverse.dropWhile
        (fun c => c = ')' ∨ c = '.' ∨ c = ':')).reverse.map pyToUpper)
      = label.map pyToUpper)

def normalize_label_to_index (label0 : Str) (labels : List Str) : Option Nat :=
  if pyStrip label0 = [] then none
  else
    match nliNum (pyStrip label0) labels with
    | some i => some i
    | none =>
      match nliLetter ((pyStrip label0).map pyToUpper) labels with
      | some i => some i
      | none => nliFallback (pyStrip label0) labels

/-- The option / answer-tag / explanation-tag scan over the lines of one
`Q` block after the question text (the second inner `while` of
`parse_bulk`); an `EXP` tag absorbs following lines up to the next tag. -/
def qScan : List Str → List Str → Option Str → Option Str →
    List Str × Option Str × Option Str
  | [], opts, ans, exp => (opts, ans, exp)
  | ln :: rest, opts, ans, exp =>
    match optionMatch ln with
    | some lt => qScan rest (opts ++ [lt.2]) ans exp
    | none =>
      match ansTag ln with
      | some a => qScan rest opts (some a) exp
      | none =>
        match expTag ln with
        | some e0 =>
          let isTag (l : Str) : Bool :=
            (ansTag l).isSome || (expTag l).isSome || (optionMatch l).isSome
          let extra := rest.takeWhile (fun l => !(isTag l))
          let rest' := rest.dropWhile (fun l => !(isTag l))
          let expText :=
            if extra = [] then e0
            else e0 ++ '\n' :: joinWith ['\n'] (extra.filter (fun l => pyStrip l ≠ []))
          qScan rest' opts ans (some (pyStrip expText))
        | none => qScan rest opts ans exp
termination_by lines _ _ _ => lines.length
decreasing_by
  · exact Nat.lt_succ_iff.mpr (Nat.le_refl _)
  · exact Nat.lt_succ_iff.mpr (Nat.le_refl _)
  · exact Nat.lt_succ_of_le (length_dropWhile_le' _ rest)
  · exact Nat.lt_succ_iff.mpr (Nat.le_refl _)

/-- One `Q` block of `parse_bulk` (source lines 85-157): question text up
to the first option line, then the option/answer/explanation scan, then the
`raise` checks. -/
def parseQBlock (idx : Nat) (lines : List Str) : Except PErr PAction :=
  let qls := (lines.takeWhile (fun l => (optionMatch l).isNone)).filterMap
    (fun l => if pyStrip l = [] then none else some (pyStrip l))
  let rest := lines.dropWhile (fun l => (optionMatch l).isNone)
  let scanned := qScan rest [] none none
  let optionLines := scanned.1
  let answer := scanned.2.1
  let explanation := scanned.2.2
  let questionText := pyStrip (joinWith [' '] qls)
  if questionText = [] then .error (.missingQuestion idx)
  else if optionLines.length < 2 then .error (.tooFewOptions idx)
  else match answer with
  | some a =>
    match normalize_label_to_index a optionLines with
    | none => .error (.invalidAnswer idx)
    | some ai => .ok (.poll questionText optionLines (some ai) explanation)
  | none =>
    match explanation with
    | some e =>
      if e = [] then .ok (.poll questionText optionLines none explanation)
      else .error (.expWithoutAns idx)
    | none => .ok (.poll questionText optionLines none explanation)

/-- The per-block loop of `parse_bulk` (blocks enumerated from 1; empty
`MSG` blocks are skipped). -/
def pbGo : List (Bool × List Str) → Nat → Except PErr (List PAction)
  | [], _ => .ok []
  | (bt, lines) :: rest, idx =>
    if bt then
      let joined := joinWith ['\n'] ((lines.filter (fun l => pyStrip l ≠ [])).map pyStrip)
      if joined = [] then pbGo rest (idx + 1)
      else
        match pbGo rest (idx + 1) with
        | .error e => .error e
        | .ok acts => .ok (.msg joined :: acts)
    else
      match parseQBlock idx lines with
      | .error e => .error e
      | .ok act =>
        match pbGo rest (idx + 1) with
        | .error e => .error e
        | .ok acts => .ok (act :: acts)

/-- `parser.parse_bulk(text)`: raises (returns `.error`) on malformed
input, starting with `"No blocks found"` when no `#MSG` / `#Q` header is
present. -/
def parse_bulk (text : Str) : Except PErr (List PAction) :=
  let lines := splitOnChar '\n' (normNewlines text)
  let blocks := splitBlocks lines
  if blocks = [] then .error .noBlocks
  else pbGo blocks 1

/-! ## worker.py: the delivery engine `post_sequence`

The Telegram gateway is modelled as a function from the running
`send_poll` call number to the outcome of that call; `send_message` calls
always succeed (their failures are caught and only logged in the source,
so they do not change control flow).  All `time.sleep` calls, all
`send_poll` calls and all operator messages are recorded as events, in
program order; delays are naturals. -/

/-- Outcome of one `bot.send_poll` call: success, a `RetryAfter` with a
`retry_after` value, or any other `TelegramError` / `Exception` (the source
handles those two identically). -/
inductive PollResp where
  | success : PollResp
  | retryAfter (retry_after : Nat) : PollResp
  | failure : PollResp
deriving DecidableEq

/-- A sequence item as consumed by `post_sequence` (the dict shapes
`{"type": "des", ...}`, `{"type": "question", ...}`, or anything else). -/
inductive WItem where
  | des (text : Str) : WItem
  | question (raw_question : Str) (options : List (Char × Str))
      (ans : Option Str) (exp : Option Str) : WItem
  | other : WItem
deriving DecidableEq

/-- The argument record of a `bot.send_poll` call. -/
structure PollPayload where
  question : Str
  options : List Str
  is_anonymous : Bool
  correct_option_id : Nat
  explanation : Option Str
deriving DecidableEq

/-- Messages sent to the owner, one constructor per `bot.send_message(owner_id, ...)`
f-string of the source. -/
inductive OwnerMsg where
  /-- `"❌ Aborting: too many sequential failures (question index {idx})."` -/
  | abortInvalid (idx : Nat) : OwnerMsg
  /-- `"❌ Failed to post question #{idx}. Aborting job."` -/
  | failedQuestion (idx : Nat) : OwnerMsg
  /-- `"❌ Aborted job due to repeated failures at question #{idx}."` -/
  | abortRepeated (idx : Nat) : OwnerMsg
  /-- `"✅ {sent_count} quiz(es) sent successfully to {name} 🎉"` -/
  | finalConfirm (sent : Nat) : OwnerMsg
deriving DecidableEq

/-- Observable actions of `post_sequence`, in program order. -/
inductive Event where
  /-- `bot.send_message(chat_id, text)` for a `des` item -/
  | desSent (text : Str) : Event
  /-- one `bot.send_poll` invocation (an attempt, successful or not) -/
  | pollCall (payload : PollPayload) : Event
  /-- `time.sleep(wait)` after a `RetryAfter` -/
  | sleepRetryWait (secs : Nat) : Event
  /-- `time.sleep(backoff)` after a transient error -/
  | sleepBackoff (secs : Nat) : Event
  /-- the pacing `time.sleep` after a successfully posted poll -/
  | sleepPacing (secs : Nat) : Event
  /-- a `bot.send_message(owner_id, ...)` -/
  | ownerMsg (m : OwnerMsg) : Event
deriving DecidableEq

/-- `_letter_to_index(letter, ordered_labels)` from worker.py; the labels
are the one-letter option keys, so `ordered_labels.index(letter_u)` is a
first-occurrence search that a multi-character string never satisfies. -/
def idxOfChar (c : Char) : List Char → Option Nat
  | [] => none
  | x :: xs => if x = c then some 0 else (idxOfChar c xs).map (fun i => i + 1)

def letterToIndex (letter : Str) (ordered_labels : List Char) : Option Nat :=
  match (pyStrip letter).map pyToUpper with
  | [] => none
  | [c] => idxOfChar c ordered_labels
  | _ => none

/-- `item.get("exp") or None` and the `explanation if explanation else None`
argument: an empty string becomes `None`. -/
def normExp (exp : Option Str) : Option Str :=
  match exp with
  | some e => if e = [] then none else some e
  | none => none

/-- The poll-payload construction and validation of `post_sequence`
(source lines 64-90): order the options by sorted label, map the `ans`
letter to its index, and require at least 2 options and a valid index. -/
def questionPayload (raw_question : Str) (options : List (Char × Str))
    (ans : Option Str) (exp : Option Str) (is_anonymous : Bool) : Option PollPayload :=
  match letterToIndex ((pyStrip (ans.getD [])).map pyToUpper) (sortedKeys options) with
  | none => none
  | some ci =>
    if ((sortedKeys options).map (fun lbl => (dictGet? options lbl).getD [])).length < 2 then none
    else some { question := raw_question,
                options := (sortedKeys options).map (fun lbl => (dictGet? options lbl).getD []),
                is_anonymous := is_anonymous, correct_option_id := ci,
                explanation := normExp exp }

/-- Result of the retry loop for one question. -/
structure AttemptOut where
  success : Bool
  callNo : Nat
  events : List Event
deriving DecidableEq

/-- The `while attempt < max_retries` retry loop of `post_sequence`
(source lines 93-136), written by recursion on `remaining = max_retries - attempt`:
`RetryAfter` sleeps `retry_after or 1` seconds and consumes an attempt;
any other failure sleeps `min(2 ** attempt, 30)` (with `attempt` already
incremented) and consumes an attempt; success sleeps the pacing delay
chosen by `len(sequence) <= 50`. -/
def pollAttempt (gw : Nat → PollResp) (payload : PollPayload)
    (seqLen dShort dLong : Nat) : Nat → Nat → Nat → AttemptOut
  | _, 0, callNo => { success := false, callNo := callNo, events := [] }
  | attempt, remaining + 1, callNo =>
    match gw callNo with
    | .success =>
      { success := true, callNo := callNo + 1,
        events := [Event.pollCall payload,
                   Event.sleepPacing (if seqLen ≤ 50 then dShort else dLong)] }
    | .retryAfter ra =>
      let wait := if ra = 0 then 1 else ra
      let out := pollAttempt gw payload seqLen dShort dLong (attempt + 1) remaining (callNo + 1)
      { out with events := Event.pollCall payload :: Event.sleepRetryWait wait :: out.events }
    | .failure =>
      let backoff := min (2 ^ (attempt + 1)) 30
      let out := pollAttempt gw payload seqLen dShort dLong (attempt + 1) remaining (callNo + 1)
      { out with events := Event.pollCall payload :: Event.sleepBackoff backoff :: out.events }

/-- Mutable state threaded through the item loop of `post_sequence`. -/
structure RunState where
  sentCount : Nat
  consecFailures : Nat
  callNo : Nat
deriving DecidableEq

/-- Result of the item loop: final counters, the event trace, and whether an
early `return sent_count` (an abort) was taken and at which 1-based item
index. -/
structure RunOut where
  sentCount : Nat
  consecFailures : Nat
  callNo : Nat
  events : List Event
  aborted : Bool
  abortIdx : Option Nat
deriving DecidableEq

/-- The `for idx, item in enumerate(sequence, start=1)` loop of
`post_sequence` (source lines 52-169).  `ownerP` is the truthiness of
`owner_id`.  An abort returns immediately, skipping the remaining items and
the final-confirmation block. -/
def postLoop (gw : Nat → PollResp) (is_anonymous ownerP : Bool)
    (seqLen dShort dLong maxRetries failAbort : Nat) :
    List WItem → Nat → RunState → RunOut
  | [], _, st =>
    { sentCount := st.sentCount, consecFailures := st.consecFailures,
      callNo := st.callNo, events := [], aborted := false, abortIdx := none }
  | item :: rest, idx, st =>
    match item with
    | .des t =>
      let out := postLoop gw is_anonymous ownerP seqLen dShort dLong maxRetries failAbort
        rest (idx + 1) st
      { out with events := Event.desSent t :: out.events }
    | .other =>
      postLoop gw is_anonymous ownerP seqLen dShort dLong maxRetries failAbort
        rest (idx + 1) st
    | .question raw options ans exp =>
      match questionPayload raw options ans exp is_anonymous with
      | none =>
        let cf := st.consecFailures + 1
        if failAbort ≤ cf then
          { sentCount := st.sentCount, consecFailures := cf, callNo := st.callNo,
            events := if ownerP then [Event.ownerMsg (.abortInvalid idx)] else [],
            aborted := true, abortIdx := some idx }
        else
          postLoop gw is_anonymous ownerP seqLen dShort dLong maxRetries failAbort
            rest (idx + 1) { st with consecFailures := cf }
      | some payload =>
        let att := pollAttempt gw payload seqLen dShort dLong 0 maxRetries st.callNo
        if att.success then
          let out := postLoop gw is_anonymous ownerP seqLen dShort dLong maxRetries failAbort
            rest (idx + 1) { sentCount := st.sentCount + 1, consecFailures := 0, callNo := att.callNo }
          { out with events := att.events ++ out.events }
        else
          let cf := st.consecFailures + 1
          let failEv := if ownerP then [Event.ownerMsg (.failedQuestion idx)] else []
          if failAbort ≤ cf then
            { sentCount := st.sentCount, consecFailures := cf, callNo := att.callNo,
              events := att.events ++ failEv
                ++ (if ownerP then [Event.ownerMsg (.abortRepeated idx)] else []),
              aborted := true, abortIdx := some idx }
          else
            let out := postLoop gw is_anonymous ownerP seqLen dShort dLong maxRetries failAbort
              rest (idx + 1) { st with consecFailures := cf, callNo := att.callNo }
            { out with events := att.events ++ failEv ++ out.events }

/-- Key of the in-process `_notified_jobs` guard: the `job_id` if truthy,
otherwise the `f"{chat_id}:{owner_id}:{sent_count}"` fallback (modelled
structurally; the rendering is injective on these components). -/
inductive JobKey where
  | jid (id : Str) : JobKey
  | fallback (chat : Int) (owner : Option Int) (sent : Nat) : JobKey
deriving DecidableEq

/-- Python truthiness of `owner_id` (an int or `None`). -/
def ownerTruthy (ownerId : Option Int) : Bool :=
  match ownerId with
  | some o => o ≠ 0
  | none => false

def jobKey (jobId : Option Str) (chatId : Int) (ownerId : Option Int) (sent : Nat) : JobKey :=
  match jobId with
  | some j => if j = [] then JobKey.fallback chatId ownerId sent else JobKey.jid j
  | none => JobKey.fallback chatId ownerId sent

/-- The final-confirmation block of `post_sequence` (source lines 171-206).
`db.py` defines no `mark_job_done`, so `hasattr(db, "mark_job_done")` is
`False` and the in-memory `_notified_jobs` guard decides; the guard key is
always recorded, the message is sent only when `owner_id` is truthy. -/
def finalNotify (jobId : Option Str) (chatId : Int) (ownerId : Option Int)
    (sentCount : Nat) (notifiedJobs : List JobKey) : List Event × List JobKey :=
  if jobKey jobId chatId ownerId sentCount ∈ notifiedJobs then ([], notifiedJobs)
  else if ownerTruthy ownerId then
    ([Event.ownerMsg (.finalConfirm sentCount)],
      notifiedJobs ++ [jobKey jobId chatId ownerId sentCount])
  else ([], notifiedJobs ++ [jobKey jobId chatId ownerId sentCount])

/-- `worker.post_sequence(...)`: the item loop, then — only when no abort
returned early — the idempotent final confirmation.  Returns the run
outcome together with the updated `_notified_jobs` guard state. -/
def post_sequence (gw : Nat → PollResp) (chatId : Int) (sequence : List WItem)
    (is_anonymous : Bool) (ownerId : Option Int) (jobId : Option Str)
    (dShort dLong maxRetries failAbort : Nat)
    (notifiedJobs : List JobKey) : RunOut × List JobKey :=
  let run := postLoop gw is_anonymous (ownerTruthy ownerId) sequence.length
    dShort dLong maxRetries failAbort sequence 1 ⟨0, 0, 0⟩
  if run.aborted then (run, notifiedJobs)
  else
    let fn := finalNotify jobId chatId ownerId run.sentCount notifiedJobs
    ({ run with events := run.events ++ fn.1 }, fn.2)

/-! ## Helper observations used by the claim statements -/

def isQuestion (it : WItem) : Bool :=
  match it with
  | .question _ _ _ _ => true
  | _ => false

def questionCount (seq : List WItem) : Nat := (seq.filter isQuestion).length

/-- 1-based position (counting from `base`) of the `k`-th question item. -/
def posOfQuestion : List WItem → Nat → Nat → Option Nat
  | [], _, _ => none
  | it :: rest, k, base =>
    if isQuestion it then
      if k = 1 then some base else posOfQuestion rest (k - 1) (base + 1)
    else posOfQuestion rest k (base + 1)

def isFinalConfirmEv (e : Event) : Bool :=
  match e with
  | .ownerMsg (.finalConfirm _) => true
  | _ => false

def countFinalConfirm (evs : List Event) : Nat := (evs.filter isFinalConfirmEv).length

def isAbortNoticeEv (e : Event) : Bool :=
  match e with
  | .ownerMsg (.abortRepeated _) => true
  | .ownerMsg (.abortInvalid _) => true
  | _ => false

def countAbortNotices (evs : List Event) : Nat := (evs.filter isAbortNoticeEv).length

def isPollCallEv (e : Event) : Bool :=
  match e with
  | .pollCall _ => true
  | _ => false

def countPollCalls (evs : List Event) : Nat := (evs.filter isPollCallEv).length

/-- Sum of the `RetryAfter` sleeps of a trace. -/
def sumRetryWait (evs : List Event) : Nat :=
  (evs.filterMap (fun e => match e with | .sleepRetryWait s => some s | _ => none)).sum

/-- The item-loop run of `post_sequence`, before the final-confirmation
block. -/
def runOf (gw : Nat → PollResp) (sequence : List WItem) (is_anonymous : Bool)
    (ownerId : Option Int) (dShort dLong maxRetries failAbort : Nat) : RunOut :=
  postLoop gw is_anonymous (ownerTruthy ownerId) sequence.length
    dShort dLong maxRetries failAbort sequence 1 ⟨0, 0, 0⟩

/-- All error diagnostics of a validator result: the global ones and the
per-question ones, in order. -/
def allErrorDiags (r : VResult) : List Str :=
  r.errors ++ (r.questions.map QObj.errors).flatten

/-- All warning diagnostics of a validator result. -/
def allWarnDiags (r : VResult) : List Str :=
  r.warnings ++ (r.questions.map QObj.warnings).flatten

/-- Does any error diagnostic mention the phrase, case-insensitively? -/
def someErrorMentions (r : VResult) (phrase : Str) : Bool :=
  (allErrorDiags r).any (fun m => containsSub (lowerStr m) (lowerStr phrase))

def vDefault : VResult := initV

/-- Unpack the (always-`some`, by `validator_total`) validator result. -/
def vget (o : Option VResult) : VResult := o.getD vDefault

def questionExp (r : VResult) (k : Nat) : Option Str :=
  match r.questions.get? k with
  | some q => q.exp
  | none => none

def questionErrors (r : VResult) (k : Nat) : List Str :=
  match r.questions.get? k with
  | some q => q.errors
  | none => []

def questionOptionText (r : VResult) (k : Nat) (lbl : Char) : Option Str :=
  match r.questions.get? k with
  | some q => dictGet? q.options lbl
  | none => none

/-! ## Concrete inputs used by witnesses and counterexamples -/

def emptyText : Str := "".toList

def scenarioAText : Str := "Q: 2+2?\nA: 3\nB: 4\nC: 5\nD: 6\nANS: B\nEXP: basic arithmetic".toList

def expBeforeAnsText : Str := "Q: q?\nA: 1\nB: 2\nC: 3\nD: 4\nEXP: because\nANS: B".toList

def claimPhraseC6 : Str := "explanation requires a prior answer".toList

def numericAnsText : Str := "Q: q?\nA: 1\nB: 2\nC: 3\nD: 4\nANS: 2".toList

def dupLabelText : Str := "Q: p?\nA: one\nA: two\nB: b\nC: c\nD: d\nANS: A".toList

def rawW : Str := "q".toList

def optsW : List (Char × Str) := [('A', "one".toList), ('B', "two".toList)]

def ansW : Option Str := some ("A".toList)

/-- A well-formed question item as the validator produces it. -/
def qOK : WItem := WItem.question rawW optsW ansW none

/-- The payload `post_sequence` builds for `qOK`. -/
def payloadW : PollPayload :=
  { question := rawW, options := ["one".toList, "two".toList],
    is_anonymous := false, correct_option_id := 0, explanation := none }

def jobJ : Option Str := some ("j".toList)

/-- A gateway that rate-limits the first `k` calls with wait `w` and then
succeeds. -/
def gwRateLimited (k w : Nat) : Nat → PollResp :=
  fun n => if n < k then PollResp.retryAfter w else PollResp.success

/-- A gateway that fails every call. -/
def gwAlwaysFail : Nat → PollResp := fun _ => PollResp.failure

/-- A gateway that succeeds on every call. -/
def gwAlwaysOk : Nat → PollResp := fun _ => PollResp.success

def seqThreeQ : List WItem := [qOK, qOK, qOK]

def seqC8 : List WItem := List.replicate 50 (WItem.des ("hi".toList)) ++ [qOK]

/-- A question block state in progress, with no `ANS` recorded yet. -/
def qNoAns : QObj :=
  { index := 1, raw_question := "q".toList, options := [('A', "one".toList)],
    ans := none, exp := none, errors := [], warnings := [] }

/-- A question block state whose `ANS` letter matches no option. -/
def qBadAns : QObj :=
  { index := 2, raw_question := "q".toList, options := [('A', "one".toList), ('B', "two".toList)],
    ans := some ("E".toList), exp := none, errors := [], warnings := [] }

def expLineW : Str := "EXP: why".toList

def expPayloadW : Str := "why".toList

def ansLineW : Str := "ANS: 12".toList

def ansTokW : Str := "12".toList

def optLineW : Str := "A: two".toList

def optTextW : Str := "two".toList

def digitsW : Str := "2".toList

def labelsW : List Str := ["x".toList, "y".toList, "z".toList]

/-!
# Theorems

## Totality of the validator (claim C1)
-/

theorem getLast?_ne_none' {α : Type} {l : List α} (h : l ≠ []) : l.getLast? ≠ none := by
  cases l with
  | nil => exact absurd rfl h
  | cons a t => simp [List.getLast?]

theorem sortedKeys_ne_nil {d : List (Char × Str)} (h : d ≠ []) : sortedKeys d ≠ [] := by
  have hlen : (sortedKeys d).length = d.length := by
    unfold sortedKeys
    rw [(List.perm_insertionSort _ _).length_eq]
    simp [dictKeys]
  intro hnil
  rw [hnil] at hlen
  cases d with
  | nil => exact h rfl
  | cons a t => simp at hlen

theorem qStep_ne_err (cur : Str) (i : Nat) (q : QObj) (okF : Bool) :
    qStep cur i q okF ≠ QStep.err := by
  intro h
  unfold qStep at h
  split at h
  · exact QStep.noConfusion h
  split at h
  · exact QStep.noConfusion h
  split at h
  · exact QStep.noConfusion h
  split at h
  · split at h <;> exact QStep.noConfusion h
  split at h
  · split at h <;> exact QStep.noConfusion h
  split at h
  · exact QStep.noConfusion h
  split at h
  · exact QStep.noConfusion h
  rename_i hopts
  split at h
  · exact QStep.noConfusion h
  · rename_i hlast
    exact getLast?_ne_none' (sortedKeys_ne_nil hopts) hlast

theorem qLoop_isSome : ∀ (lines : List Str) (i : Nat) (q : QObj) (okF : Bool),
    (qLoop lines i q okF).isSome := by
  intro lines
  induction lines with
  | nil => intro i q okF; simp [qLoop]
  | cons ln rest ih =>
    intro i q okF
    cases h : qStep (pyStrip ln) i q okF with
    | brk => simp [qLoop, h]
    | cont q' okF' => simp only [qLoop, h]; exact ih (i + 1) q' okF'
    | err => exact absurd h (qStep_ne_err _ _ _ _)

theorem qLoop_rest_le : ∀ (lines : List Str) (i : Nat) (q : QObj) (okF : Bool)
    (out : QLoopOut), qLoop lines i q okF = some out → out.rest.length ≤ lines.length := by
  intro lines
  induction lines with
  | nil =>
    intro i q okF out h
    simp [qLoop] at h
    simp [← h]
  | cons ln rest ih =>
    intro i q okF out h
    cases hs : qStep (pyStrip ln) i q okF with
    | brk =>
      simp [qLoop, hs] at h
      simp [← h]
    | cont q' okF' =>
      simp only [qLoop, hs] at h
      exact Nat.le_succ_of_le (ih (i + 1) q' okF' out h)
    | err => exact absurd hs (qStep_ne_err _ _ _ _)

theorem vLoop_isSome : ∀ (fuel : Nat) (lines : List Str), lines.length < fuel →
    ∀ (i : Nat) (sq : Bool) (acc : VResult), (vLoop fuel lines i sq acc).isSome := by
  intro fuel
  induction fuel with
  | zero => intro lines h; exact absurd h (Nat.not_lt_zero _)
  | succ f ih =>
    intro lines h i sq acc
    cases lines with
    | nil => simp [vLoop]
    | cons ln rest =>
      have hr : rest.length < f := Nat.lt_of_succ_lt_succ h
      rw [vLoop]
      split
      · exact ih rest hr _ _ _
      split
      · split
        · exact ih rest hr _ _ _
        · exact ih rest hr _ _ _
      split
      · rename_i g _
        cases hq : qLoop rest (i + 1)
            { index := acc.questions.length + 1, raw_question := pyStrip g,
              options := [], ans := none, exp := none, errors := [], warnings := [] }
            false with
        | none =>
          have := qLoop_isSome rest (i + 1)
            { index := acc.questions.length + 1, raw_question := pyStrip g,
              options := [], ans := none, exp := none, errors := [], warnings := [] }
            false
          rw [hq] at this
          exact absurd this (by simp)
        | some out =>
          simp only [hq]
          exact ih out.rest
            (Nat.lt_of_le_of_lt (qLoop_rest_le _ _ _ _ _ hq) hr) _ _ _
      split
      · exact ih rest hr _ _ _
      split
      · exact ih rest hr _ _ _
      · exact ih rest hr _ _ _

/-- C1 (amended): for every input text, `validate_and_parse` terminates
within the fuel bound and returns a `ParseResult`-shaped value — the
modelled exception points and the fuel are never hit, so no input makes the
validator raise or run away.  (The claim as frozen also covers the bulk
parser `parse_bulk`, which does terminate abruptly on block-free input:
see the counterexample `parse_bulk_raises_on_empty_c1_cex`.) -/
theorem validate_and_parse_total_c1 (text : Str) : (validate_and_parse text).isSome := by
  unfold validate_and_parse validateLines finalCheck
  cases hv : vLoop
      ((((pySplitLines text).map pyRStrip).filter
        (fun ln => !(containsSub ln egMarker))).length + 1)
      (((pySplitLines text).map pyRStrip).filter (fun ln => !(containsSub ln egMarker)))
      0 false initV with
  | none =>
    have := vLoop_isSome
      ((((pySplitLines text).map pyRStrip).filter
        (fun ln => !(containsSub ln egMarker))).length + 1)
      (((pySplitLines text).map pyRStrip).filter (fun ln => !(containsSub ln egMarker)))
      (Nat.lt_succ_self _) 0 false initV
    rw [hv] at this
    exact absurd this (by simp)
  | some r =>
    simp only [hv]
    split <;> simp

/-- C1 (counterexample): the bulk parser — one of the two parse operations
the claim cites — terminates abruptly (`raise ParseError("No blocks
found...")`) on the empty input, which certainly "contains no recognizable
blocks". -/
theorem parse_bulk_raises_on_empty_c1_cex :
    parse_bulk emptyText = Except.error PErr.noBlocks := by rfl

/-! ## The `ok` flag tracks the error diagnostics (claim C4)

`validate_and_parse` starts with `ok = True`, sets it to `False` exactly at
the sites that append an error, and never resets it; the invariant below
follows the loops. -/

theorem qStep_cont_spec {cur : Str} {i : Nat} {q : QObj} {okF : Bool} {q' : QObj} {okF' : Bool}
    (h : qStep cur i q okF = QStep.cont q' okF') :
    (q'.errors = q.errors ∧ okF' = okF) ∨ (∃ m, q'.errors = q.errors ++ [m] ∧ okF' = true) := by
  unfold qStep at h
  split at h
  · cases h; exact Or.inl ⟨rfl, rfl⟩
  split at h
  · exact QStep.noConfusion h
  split at h
  · cases h; exact Or.inr ⟨_, rfl, rfl⟩
  split at h
  · split at h
    · cases h; exact Or.inl ⟨rfl, rfl⟩
    · cases h; exact Or.inr ⟨_, rfl, rfl⟩
  · split at h
    · split at h
      · cases h; exact Or.inr ⟨_, rfl, rfl⟩
      · cases h; exact Or.inl ⟨rfl, rfl⟩
    · split at h
      · cases h; exact Or.inl ⟨rfl, rfl⟩
      · split at h
        · cases h; exact Or.inl ⟨rfl, rfl⟩
        · split at h
          · cases h; exact Or.inl ⟨rfl, rfl⟩
          · exact QStep.noConfusion h

theorem qLoop_spec : ∀ (lines : List Str) (i : Nat) (q : QObj) (okF : Bool)
    (out : QLoopOut), qLoop lines i q okF = some out →
    ∃ extra, out.q.errors = q.errors ++ extra ∧
      (out.okFalse = false ↔ (okF = false ∧ extra = [])) := by
  intro lines
  induction lines with
  | nil =>
    intro i q okF out h
    simp [qLoop] at h
    exact ⟨[], by simp [← h]⟩
  | cons ln rest ih =>
    intro i q okF out h
    cases hs : qStep (pyStrip ln) i q okF with
    | brk =>
      simp [qLoop, hs] at h
      exact ⟨[], by simp [← h]⟩
    | cont q1 okF1 =>
      simp only [qLoop, hs] at h
      obtain ⟨e1, he1, hf1⟩ := ih (i + 1) q1 okF1 out h
      rcases qStep_cont_spec hs with ⟨heq, hfq⟩ | ⟨m, heq, hfq⟩
      · exact ⟨e1, by rw [he1, heq], by rw [hf1, hfq]⟩
      · refine ⟨m :: e1, ?_, ?_⟩
        · rw [he1, heq]; simp
        · rw [hf1, hfq]; simp
    | err => exact absurd hs (qStep_ne_err _ _ _ _)

theorem reqLabelCheck_spec (q : QObj) (okF : Bool) (lbl : Char) :
    ∃ extra, (reqLabelCheck q okF lbl).1.errors = q.errors ++ extra ∧
      ((reqLabelCheck q okF lbl).2 = false ↔ (okF = false ∧ extra = [])) ∧
      (reqLabelCheck q okF lbl).1.options = q.options ∧
      (reqLabelCheck q okF lbl).1.ans = q.ans ∧
      (reqLabelCheck q okF lbl).1.index = q.index := by
  unfold reqLabelCheck
  split
  · exact ⟨[], by simp⟩
  · exact ⟨[msgMissingOpt q.index lbl], by simp⟩

theorem reqFold_spec : ∀ (lbls : List Char) (q : QObj) (okF : Bool),
    ∃ extra, (reqFold lbls q okF).1.errors = q.errors ++ extra ∧
      ((reqFold lbls q okF).2 = false ↔ (okF = false ∧ extra = [])) ∧
      (reqFold lbls q okF).1.options = q.options ∧
      (reqFold lbls q okF).1.ans = q.ans ∧
      (reqFold lbls q okF).1.index = q.index := by
  intro lbls
  induction lbls with
  | nil => intro q okF; exact ⟨[], by simp [reqFold]⟩
  | cons l ls ih =>
    intro q okF
    obtain ⟨e1, he1, hf1, ho1, ha1, hi1⟩ := reqLabelCheck_spec q okF l
    obtain ⟨e2, he2, hf2, ho2, ha2, hi2⟩ :=
      ih (reqLabelCheck q okF l).1 (reqLabelCheck q okF l).2
    have hstep : reqFold (l :: ls) q okF
        = reqFold ls (reqLabelCheck q okF l).1 (reqLabelCheck q okF l).2 := by
      simp [reqFold]
    refine ⟨e1 ++ e2, ?_, ?_, ?_, ?_, ?_⟩
    · rw [hstep, he2, he1]; simp
    · rw [hstep, hf2, hf1]
      constructor
      · rintro ⟨⟨hk, hx⟩, hy⟩
        exact ⟨hk, by simp [hx, hy]⟩
      · rintro ⟨hk, hee⟩
        rcases List.append_eq_nil.mp hee with ⟨hx, hy⟩
        exact ⟨⟨hk, hx⟩, hy⟩
    · rw [hstep, ho2, ho1]
    · rw [hstep, ha2, ha1]
    · rw [hstep, hi2, hi1]

theorem finalizeAns_spec (p : QObj × Bool) :
    ∃ extra, (finalizeAns p).1.errors = p.1.errors ++ extra ∧
      ((finalizeAns p).2 = false ↔ (p.2 = false ∧ extra = [])) := by
  unfold finalizeAns
  split
  · exact ⟨[msgMissingAns p.1.index], by simp⟩
  · rename_i a _
    split
    · exact ⟨[], by simp⟩
    · exact ⟨[msgAnsMismatch a p.1.index], by simp⟩

theorem finalizeQ_spec (q : QObj) (okF : Bool) :
    ∃ extra, (finalizeQ q okF).1.errors = q.errors ++ extra ∧
      ((finalizeQ q okF).2 = false ↔ (okF = false ∧ extra = [])) := by
  obtain ⟨e1, he1, hf1, ho1, ha1, hi1⟩ := reqFold_spec ['A', 'B', 'C', 'D'] q okF
  obtain ⟨e2, he2, hf2⟩ := finalizeAns_spec (reqFold ['A', 'B', 'C', 'D'] q okF)
  refine ⟨e1 ++ e2, ?_, ?_⟩
  · unfold finalizeQ
    rw [he2, he1]
    simp
  · unfold finalizeQ
    rw [hf2, hf1]
    constructor
    · rintro ⟨⟨hk, hx⟩, hy⟩
      exact ⟨hk, by simp [hx, hy]⟩
    · rintro ⟨hk, hee⟩
      rcases List.append_eq_nil.mp hee with ⟨hx, hy⟩
      exact ⟨⟨hk, hx⟩, hy⟩

/-- The invariant the claim states: the `ok` flag is `true` exactly when no
error diagnostic has been recorded. -/
def okInv (r : VResult) : Prop :=
  r.ok = true ↔ (r.errors = [] ∧ ∀ q ∈ r.questions, q.errors = [])

theorem okInv_init : okInv initV := by simp [okInv, initV]

theorem okInv_addError {acc : VResult} (m : Str) :
    okInv { acc with errors := acc.errors ++ [m], ok := false } := by
  simp [okInv]

theorem okInv_same {acc acc' : VResult} (h : okInv acc) (hok : acc'.ok = acc.ok)
    (he : acc'.errors = acc.errors) (hq : acc'.questions = acc.questions) :
    okInv acc' := by
  unfold okInv at *
  rw [hok, he, hq]
  exact h

theorem okInv_addQuestion {acc : VResult} (h : okInv acc) {q' : QObj} {f : Bool}
    (hq : f = false ↔ q'.errors = []) :
    okInv { acc with ok := acc.ok && !f, questions := acc.questions ++ [q'] } := by
  unfold okInv at *
  show (acc.ok && !f) = true ↔ (acc.errors = [] ∧ ∀ q ∈ acc.questions ++ [q'], q.errors = [])
  rw [Bool.and_eq_true, Bool.not_eq_true', h, hq]
  simp only [List.forall_mem_append, List.forall_mem_singleton]
  tauto

theorem vLoop_inv : ∀ (fuel : Nat) (lines : List Str) (i : Nat) (sq : Bool)
    (acc : VResult) (r : VResult), vLoop fuel lines i sq acc = some r →
    okInv acc → okInv r := by
  intro fuel
  induction fuel with
  | zero => intro lines i sq acc r h; exact absurd h (by simp [vLoop])
  | succ f ih =>
    intro lines i sq acc r h hinv
    cases lines with
    | nil =>
      simp [vLoop] at h
      rw [← h]; exact hinv
    | cons ln rest =>
      rw [vLoop] at h
      split at h
      · exact ih _ _ _ _ _ h hinv
      split at h
      · split at h
        · exact ih _ _ _ _ _ h (okInv_addError _)
        · exact ih _ _ _ _ _ h (okInv_same hinv rfl rfl rfl)
      split at h
      · rename_i g _
        split at h
        · exact Option.noConfusion h
        · rename_i out hq
          have hql := qLoop_spec _ _ _ _ _ hq
          obtain ⟨e1, he1, hf1⟩ := hql
          obtain ⟨e2, he2, hf2⟩ := finalizeQ_spec out.q out.okFalse
          refine ih _ _ _ _ _ h (okInv_addQuestion hinv ?_)
          rw [hf2, hf1]
          simp only [he2, he1]
          simp [List.append_eq_nil]
      split at h
      · exact ih _ _ _ _ _ h (okInv_same hinv rfl rfl rfl)
      split at h
      · exact ih _ _ _ _ _ h (okInv_same hinv rfl rfl rfl)
      · exact ih _ _ _ _ _ h hinv

/-- C4: for every input text, the returned result has `ok = true` exactly
when no error-severity diagnostic exists, neither among the global errors
nor among any question's errors (warnings never affect `ok`). -/
theorem finalCheck_inv {o : Option VResult} (h : ∀ r0 ∈ o, okInv r0) :
    ∀ r ∈ finalCheck o, okInv r := by
  intro r hr
  rw [Option.mem_def] at hr
  cases o with
  | none => exact Option.noConfusion hr
  | some r0 =>
    unfold finalCheck at hr
    split at hr
    · rename_i heq
      exact Option.noConfusion heq
    · rename_i r1 heq
      injection heq with h01
      subst h01
      split at hr
      · rw [Option.some.injEq] at hr
        rw [← hr]
        exact okInv_addError msgNoQuestions
      · rw [Option.some.injEq] at hr
        rw [← hr]
        exact h r0 (Option.mem_def.mpr rfl)

theorem ok_iff_no_errors_c4 (text : Str) :
    ∀ r ∈ validate_and_parse text,
      (r.ok = true ↔ (r.errors = [] ∧ ∀ q ∈ r.questions, q.errors = [])) := by
  intro r hr
  unfold validate_and_parse validateLines at hr
  refine finalCheck_inv (fun r0 hr0 => ?_) r hr
  exact vLoop_inv _ _ _ _ _ _ (Option.mem_def.mp hr0) okInv_init

/-- C4 witness: the invariant instantiated at spec Scenario A's input. -/
theorem ok_iff_no_errors_c4_witness :
    (vget (validate_and_parse scenarioAText)).ok = true ↔
      ((vget (validate_and_parse scenarioAText)).errors = [] ∧
        ∀ q ∈ (vget (validate_and_parse scenarioAText)).questions, q.errors = []) :=
  ok_iff_no_errors_c4 scenarioAText (vget (validate_and_parse scenarioAText))
    (Option.mem_def.mpr (by rfl))

/-! ## Line-classification inversions for the inner block loop -/

theorem expMatch_inv {cur g : Str} (h : expMatch cur = some g) :
    ∃ rest, cur = 'E' :: 'X' :: 'P' :: ':' :: rest ∧ g = rest.dropWhile pyIsSpace := by
  unfold expMatch at h
  split at h
  · rename_i rest
    injection h with h1
    exact ⟨rest, rfl, h1.symm⟩
  · exact Option.noConfusion h

theorem ansMatch_inv {cur tok : Str} (h : ansMatch cur = some tok) :
    ∃ rest, cur = 'A' :: 'N' :: 'S' :: ':' :: rest := by
  unfold ansMatch at h
  split at h
  · rename_i rest
    exact ⟨rest, rfl⟩
  · exact Option.noConfusion h

theorem optLabelMatch_inv {cur : Str} {lbl : Char} {g2 : Str}
    (h : optLabelMatch cur = some (lbl, g2)) :
    ∃ rest, cur = lbl :: ':' :: rest := by
  unfold optLabelMatch at h
  split at h
  · rename_i c rest
    split at h
    · injection h with h1
      have hc : c = lbl := congrArg Prod.fst h1
      exact ⟨rest, by rw [hc]⟩
    · exact Option.noConfusion h
  · exact Option.noConfusion h

theorem qMatch_none_of_colon {lbl : Char} (rest : Str) (h : lbl ≠ 'Q') :
    qMatch (lbl :: ':' :: rest) = none := by
  unfold qMatch
  split
  · rename_i heq
    injection heq with h1 h2
    exact absurd h1 h
  · rfl

theorem desMatch_none_of_colon (lbl : Char) (rest : Str) :
    desMatch (lbl :: ':' :: rest) = none := by
  unfold desMatch
  split
  · rename_i heq
    injection heq with h1 h2
    injection h2 with h3 h4
    exact absurd h3 (by decide)
  · rfl

theorem ansMatch_none_of_colon (lbl : Char) (rest : Str) :
    ansMatch (lbl :: ':' :: rest) = none := by
  unfold ansMatch
  split
  · rename_i heq
    injection heq with h1 h2
    injection h2 with h3 h4
    exact absurd h3 (by decide)
  · rfl

theorem expMatch_none_of_colon (lbl : Char) (rest : Str) :
    expMatch (lbl :: ':' :: rest) = none := by
  unfold expMatch
  split
  · rename_i heq
    injection heq with h1 h2
    injection h2 with h3 h4
    exact absurd h3 (by decide)
  · rfl

theorem desMatch_none_of_exp (rest : Str) : desMatch ('E' :: 'X' :: 'P' :: ':' :: rest) = none := by
  unfold desMatch
  split
  · rename_i heq
    injection heq with h1 h2
    exact absurd h1 (by decide)
  · rfl

theorem qMatch_none_of_exp (rest : Str) : qMatch ('E' :: 'X' :: 'P' :: ':' :: rest) = none := by
  unfold qMatch
  split
  · rename_i heq
    injection heq with h1 h2
    exact absurd h1 (by decide)
  · rfl

theorem ansMatch_none_of_exp (rest : Str) : ansMatch ('E' :: 'X' :: 'P' :: ':' :: rest) = none := by
  unfold ansMatch
  split
  · rename_i heq
    injection heq with h1 h2
    exact absurd h1 (by decide)
  · rfl

theorem qMatch_none_of_ans (rest : Str) : qMatch ('A' :: 'N' :: 'S' :: ':' :: rest) = none := by
  unfold qMatch
  split
  · rename_i heq
    injection heq with h1 h2
    exact absurd h1 (by decide)
  · rfl

theorem desMatch_none_of_ans (rest : Str) : desMatch ('A' :: 'N' :: 'S' :: ':' :: rest) = none := by
  unfold desMatch
  split
  · rename_i heq
    injection heq with h1 h2
    injection h2 with h3 h4
    exact absurd h3 (by decide)
  · rfl

/-! ## Claim C6: `EXP:` before any `ANS:` in a block -/

/-- C6 (amended): an `EXP:` line reaching a block with no recorded `ANS`
adds the blocking per-question error `"⚠️ EXP must come after ANS
(Question n)"` — not a diagnostic mentioning "explanation requires a prior
answer" — and still retains the stripped explanation text; on the concrete
Scenario-B input, the parse ends with `ok = false`, that error recorded,
and the explanation kept. -/
theorem exp_before_ans_error_c6 :
    (∀ (cur : Str) (i : Nat) (q : QObj) (okF : Bool) (g : Str),
      expMatch cur = some g → q.ans = none →
      qStep cur i q okF =
        QStep.cont { q with errors := q.errors ++ [msgExpAfterAns q.index],
                            exp := some (pyStrip g) } true) ∧
    ((vget (validate_and_parse expBeforeAnsText)).ok = false ∧
      msgExpAfterAns 1 ∈ questionErrors (vget (validate_and_parse expBeforeAnsText)) 0 ∧
      questionExp (vget (validate_and_parse expBeforeAnsText)) 0 = some ("because".toList)) := by
  constructor
  · intro cur i q okF g hg hans
    obtain ⟨rest, hc, hgr⟩ := expMatch_inv hg
    subst hc
    subst hgr
    unfold qStep
    rw [qMatch_none_of_exp, desMatch_none_of_exp, ansMatch_none_of_exp]
    simp [expMatch, hans]
  · exact ⟨by decide, by decide, by decide⟩

/-- C6 witness: the blocking-error-and-retain behaviour at a concrete
`EXP:` line in a block with no `ANS` yet. -/
theorem exp_before_ans_error_c6_witness :
    qStep expLineW 5 qNoAns false =
      QStep.cont { qNoAns with errors := qNoAns.errors ++ [msgExpAfterAns qNoAns.index],
                               exp := some (pyStrip expPayloadW) } true :=
  exp_before_ans_error_c6.1 expLineW 5 qNoAns false expPayloadW (by rfl) (by rfl)

/-- C6 (counterexample): on the Scenario-B input the result is `ok = false`
with the explanation retained — but no diagnostic anywhere (checked
case-insensitively) mentions "explanation requires a prior answer"; the
recorded error says "EXP must come after ANS" instead. -/
theorem exp_before_ans_message_c6_cex :
    (validate_and_parse expBeforeAnsText).isSome = true ∧
    (vget (validate_and_parse expBeforeAnsText)).ok = false ∧
    someErrorMentions (vget (validate_and_parse expBeforeAnsText)) claimPhraseC6 = false ∧
    msgExpAfterAns 1 ∈ questionErrors (vget (validate_and_parse expBeforeAnsText)) 0 ∧
    questionExp (vget (validate_and_parse expBeforeAnsText)) 0 = some ("because".toList) := by
  refine ⟨by decide, by decide, by decide, by decide, by decide⟩

/-! ## Claim C7: what an `ANS:` line accepts -/

theorem dropWhile_all_neg {α : Type} (p : α → Bool) :
    ∀ (l : List α), (∀ x ∈ l, p x = false) → l.dropWhile p = l := by
  intro l h
  cases l with
  | nil => rfl
  | cons a t => simp [List.dropWhile, h a (by simp)]

theorem digit_not_space {c : Char} (h : pyIsDigit c = true) : pyIsSpace c = false := by
  unfold pyIsDigit at h
  unfold pyIsSpace
  simp only [decide_eq_true_eq] at h
  rw [decide_eq_false_iff_not]
  rintro (rfl | rfl | rfl | rfl | rfl | rfl) <;> exact absurd h (by decide)

theorem strip_of_all_digits {s : Str} (h : s.all pyIsDigit = true) : pyStrip s = s := by
  have hmem : ∀ c ∈ s, pyIsSpace c = false :=
    fun c hc => digit_not_space (List.all_eq_true.mp h c hc)
  unfold pyStrip pyLStrip pyRStrip
  rw [dropWhile_all_neg _ _ hmem,
    dropWhile_all_neg _ _ (fun c hc => hmem c (List.mem_reverse.mp hc)),
    List.reverse_reverse]

/-- C7 (amended): the validator's `ANS:` line accepts only a single
alphabetic letter, stored uppercased; any other token — in particular a
1-based numeric index — is the blocking error "ANS must be a single
letter" (the raw token is kept for debugging).  At block close, a stored
answer matching no declared option label is the blocking mismatch error.
Numeric 1-based indices are accepted only by the separate bulk parser:
its `normalize_label_to_index` maps an in-range all-digit token to the
0-based option position. -/
theorem ans_letter_rule_c7 :
    (∀ (cur : Str) (i : Nat) (q : QObj) (okF : Bool) (tok : Str),
      ansMatch cur = some tok →
      qStep cur i q okF =
        (if (pyStrip tok).length = 1 ∧ (pyStrip tok).all pyIsAlphaChar then
           QStep.cont { q with ans := some ((pyStrip tok).map pyToUpper) } okF
         else
           QStep.cont { q with errors := q.errors ++ [msgAnsSingle q.index],
                               ans := some (pyStrip tok) } true)) ∧
    (∀ (q : QObj) (okF : Bool) (a : Str), q.ans = some a →
      ansInOptions a q.options = false →
      (finalizeQ q okF).2 = true ∧ msgAnsMismatch a q.index ∈ (finalizeQ q okF).1.errors) ∧
    (∀ (s : Str) (labels : List Str), s ≠ [] → s.all pyIsDigit = true →
      1 ≤ digitsToNat s → digitsToNat s ≤ labels.length →
      normalize_label_to_index s labels = some (digitsToNat s - 1)) := by
  refine ⟨?_, ?_, ?_⟩
  · intro cur i q okF tok hg
    obtain ⟨rest, hc⟩ := ansMatch_inv hg
    subst hc
    unfold qStep
    rw [qMatch_none_of_ans, desMatch_none_of_ans]
    simp only [List.cons_ne_nil, if_false, Option.isSome_none, Bool.false_eq_true, hg]
  · intro q okF a hans hnot
    obtain ⟨e1, he1, hf1, ho1, ha1, hi1⟩ := reqFold_spec ['A', 'B', 'C', 'D'] q okF
    unfold finalizeQ finalizeAns
    rw [ha1, hans]
    simp only [ho1, hnot, Bool.false_eq_true, if_false]
    exact ⟨by simp, by rw [hi1]; simp⟩
  · intro s labels hne hall h1 h2
    unfold normalize_label_to_index
    rw [strip_of_all_digits hall]
    simp [hne, nliNum, hall, h1, h2]

/-- C7 witness: the three rules at concrete inputs — the `ANS: 12` line is
recorded as a blocking error, the block state `qBadAns` (answer `E`, no
matching option) trips the mismatch error, and `normalize_label_to_index`
maps the numeric token `2` to index 1 for a 3-option list. -/
theorem ans_letter_rule_c7_witness :
    (qStep ansLineW 3 qNoAns false =
      (if (pyStrip ansTokW).length = 1 ∧ (pyStrip ansTokW).all pyIsAlphaChar then
         QStep.cont { qNoAns with ans := some ((pyStrip ansTokW).map pyToUpper) } false
       else
         QStep.cont { qNoAns with errors := qNoAns.errors ++ [msgAnsSingle qNoAns.index],
                                  ans := some (pyStrip ansTokW) } true)) ∧
    ((finalizeQ qBadAns false).2 = true ∧
      msgAnsMismatch ("E".toList) qBadAns.index ∈ (finalizeQ qBadAns false).1.errors) ∧
    normalize_label_to_index digitsW labelsW = some (digitsToNat digitsW - 1) :=
  ⟨ans_letter_rule_c7.1 ansLineW 3 qNoAns false ansTokW (by rfl),
   ans_letter_rule_c7.2.1 qBadAns false ("E".toList) (by rfl) (by rfl),
   ans_letter_rule_c7.2.2 digitsW labelsW (by decide) (by decide) (by decide) (by decide)⟩

/-- C7 (counterexample): the claim promises that an `ANS:` line accepts a
1-based numeric index normalized to the letter at that position; but on
`ANS: 2` with options A-D the validator records the blocking "ANS must be
a single letter" error (and a mismatch error for the raw token), so the
numeric form is not accepted there. -/
theorem ans_numeric_rejected_c7_cex :
    (validate_and_parse numericAnsText).isSome = true ∧
    (vget (validate_and_parse numericAnsText)).ok = false ∧
    msgAnsSingle 1 ∈ questionErrors (vget (validate_and_parse numericAnsText)) 0 ∧
    msgAnsMismatch ("2".toList) 1 ∈ questionErrors (vget (validate_and_parse numericAnsText)) 0 := by
  refine ⟨by decide, by decide, by decide, by decide⟩

/-! ## Claim C9: re-declaring an option label -/

/-- C9 (amended): an option-label line re-declaring a label already present
overwrites the prior value in place and emits no diagnostic at all — the
handler changes only the options dict, leaving warnings, errors and the
`ok` flag untouched (the claim's promised non-blocking warning does not
exist in the code); on the concrete duplicate-label input the parse ends
`ok = true` with zero warnings and the second text stored. -/
theorem relabel_overwrites_silently_c9 :
    (∀ (cur : Str) (i : Nat) (q : QObj) (okF : Bool) (lbl : Char) (g2 : Str),
      optLabelMatch cur = some (lbl, g2) → lbl ≠ 'Q' →
      qStep cur i q okF =
        QStep.cont { q with options := dictInsert q.options (pyToUpper lbl) (pyStrip g2) } okF) ∧
    (∀ (d : List (Char × Str)) (k : Char) (v : Str), dictGet? (dictInsert d k v) k = some v) ∧
    ((vget (validate_and_parse dupLabelText)).ok = true ∧
      allWarnDiags (vget (validate_and_parse dupLabelText)) = [] ∧
      questionOptionText (vget (validate_and_parse dupLabelText)) 0 'A' = some ("two".toList)) := by
  refine ⟨?_, ?_, by decide, by decide, by decide⟩
  · intro cur i q okF lbl g2 hg hQ
    obtain ⟨rest, hc⟩ := optLabelMatch_inv hg
    subst hc
    unfold qStep
    rw [qMatch_none_of_colon rest hQ, desMatch_none_of_colon, ansMatch_none_of_colon,
      expMatch_none_of_colon]
    simp only [List.cons_ne_nil, if_false, Option.isSome_none, Bool.false_eq_true, hg]
  · intro d k v
    induction d with
    | nil => simp [dictInsert, dictGet?]
    | cons p rest ih =>
      by_cases hk : p.1 = k
      · simp [dictInsert, hk, dictGet?]
      · simp [dictInsert, hk, dictGet?, ih]

/-- C9 witness: overwriting at a concrete re-declared label. -/
theorem relabel_overwrites_silently_c9_witness :
    (qStep optLineW 2 qNoAns false =
      QStep.cont { qNoAns with
        options := dictInsert qNoAns.options (pyToUpper 'A') (pyStrip optTextW) } false) ∧
    dictGet? (dictInsert [('A', "one".toList)] 'A' ("two".toList)) 'A' = some ("two".toList) :=
  ⟨relabel_overwrites_silently_c9.1 optLineW 2 qNoAns false 'A' optTextW (by rfl) (by decide),
   relabel_overwrites_silently_c9.2.1 [('A', "one".toList)] 'A' ("two".toList)⟩

/-- C9 (counterexample): on input that re-declares label `A`, the new text
overwrites the old one but no warning is emitted anywhere (globally or in
the question), contradicting the claim's "emits a non-blocking warning". -/
theorem relabel_no_warning_c9_cex :
    (validate_and_parse dupLabelText).isSome = true ∧
    (vget (validate_and_parse dupLabelText)).ok = true ∧
    allWarnDiags (vget (validate_and_parse dupLabelText)) = [] ∧
    questionErrors (vget (validate_and_parse dupLabelText)) 0 = [] ∧
    questionOptionText (vget (validate_and_parse dupLabelText)) 0 'A' = some ("two".toList) := by
  refine ⟨by decide, by decide, by decide, by decide, by decide⟩

/-! ## The delivery engine: shared lemmas -/

theorem post_sequence_unfold (gw : Nat → PollResp) (chatId : Int) (seq : List WItem)
    (anon : Bool) (ownerId : Option Int) (jobId : Option Str)
    (dS dL mR fA : Nat) (nj : List JobKey) :
    post_sequence gw chatId seq anon ownerId jobId dS dL mR fA nj =
      (if (runOf gw seq anon ownerId dS dL mR fA).aborted then
        (runOf gw seq anon ownerId dS dL mR fA, nj)
      else
        ({ runOf gw seq anon ownerId dS dL mR fA with
            events := (runOf gw seq anon ownerId dS dL mR fA).events
              ++ (finalNotify jobId chatId ownerId
                    (runOf gw seq anon ownerId dS dL mR fA).sentCount nj).1 },
          (finalNotify jobId chatId ownerId
            (runOf gw seq anon ownerId dS dL mR fA).sentCount nj).2)) := rfl

/-- Behaviour of the retry loop when the gateway rate-limits the first `k`
calls and then succeeds: each `RetryAfter` consumes one attempt, sleeps the
signalled wait, and the poll is re-sent; success follows after `k + 1`
calls provided `k` is below the remaining attempt budget. -/
theorem pollAttempt_rate_limited (gw : Nat → PollResp) (payload : PollPayload)
    (seqLen dS dL : Nat) (w : Nat) (hw : 0 < w) :
    ∀ (k attempt remaining callNo : Nat), k < remaining →
    (∀ j, j < k → gw (callNo + j) = PollResp.retryAfter w) →
    gw (callNo + k) = PollResp.success →
    pollAttempt gw payload seqLen dS dL attempt remaining callNo =
      { success := true, callNo := callNo + k + 1,
        events := (List.replicate k [Event.pollCall payload, Event.sleepRetryWait w]).flatten
          ++ [Event.pollCall payload,
              Event.sleepPacing (if seqLen ≤ 50 then dS else dL)] } := by
  intro k
  induction k with
  | zero =>
    intro attempt remaining callNo hk hra hs
    cases remaining with
    | zero => exact absurd hk (by omega)
    | succ r =>
      rw [pollAttempt]
      rw [show callNo + 0 = callNo from rfl] at hs
      rw [hs]
      simp
  | succ k ih =>
    intro attempt remaining callNo hk hra hs
    cases remaining with
    | zero => exact absurd hk (by omega)
    | succ r =>
      rw [pollAttempt]
      have h0 : gw callNo = PollResp.retryAfter w := by
        have := hra 0 (by omega)
        simpa using this
      rw [h0]
      have hrec := ih (attempt + 1) r (callNo + 1) (by omega)
        (fun j hj => by
          have := hra (j + 1) (by omega)
          rw [show callNo + (j + 1) = callNo + 1 + j by omega] at this
          exact this)
        (by rw [show callNo + 1 + k = callNo + (k + 1) by omega]; exact hs)
      rw [hrec]
      have hwne : w ≠ 0 := by omega
      simp only [hwne, if_false, List.replicate_succ, List.flatten_cons]
      have h1 : callNo + 1 + k + 1 = callNo + (k + 1) + 1 := by omega
      rw [h1]
      simp [List.append_assoc]

theorem sumRetryWait_rl (p : PollPayload) (w d : Nat) :
    ∀ k, sumRetryWait ((List.replicate k [Event.pollCall p, Event.sleepRetryWait w]).flatten
      ++ [Event.pollCall p, Event.sleepPacing d]) = k * w := by
  intro k
  induction k with
  | zero => simp [sumRetryWait]
  | succ k ih =>
    simp only [List.replicate_succ, List.flatten_cons, List.append_assoc]
    simp only [sumRetryWait, List.filterMap_append] at ih ⊢
    simp only [List.sum_append] at ih ⊢
    simp [ih]
    ring

theorem countPollCalls_rl (p : PollPayload) (w d : Nat) :
    ∀ k, countPollCalls ((List.replicate k [Event.pollCall p, Event.sleepRetryWait w]).flatten
      ++ [Event.pollCall p, Event.sleepPacing d]) = k + 1 := by
  intro k
  induction k with
  | zero => simp [countPollCalls, isPollCallEv]
  | succ k ih =>
    simp only [List.replicate_succ, List.flatten_cons, List.append_assoc]
    simp only [countPollCalls, List.filter_append, List.length_append] at ih ⊢
    simp [isPollCallEv] at ih ⊢
    omega

/-! ## Claim C2: the rate-limit path -/

/-- C2 (amended): on a `RetryAfter` signal the engine sleeps the signalled
duration (minimum 1 second, no extra margin) and retries the same poll,
but — unlike the claim — each such retry consumes one attempt of the
per-item ceiling, exactly like a transient failure.  A question
rate-limited `k < max_retries` times with wait `w` and then accepted is
delivered: the run reports it sent, the consecutive-failure counter ends
at zero, the gateway was called `k + 1` times, and the engine slept
`k * w` seconds of rate-limit waits. -/
theorem rate_limit_retry_c2 (w k maxR : Nat) (anon ownerP : Bool)
    (dS dL fA : Nat) (raw : Str) (opts : List (Char × Str)) (ans exp : Option Str)
    (payload : PollPayload)
    (hw : 0 < w) (hk : k < maxR)
    (hq : questionPayload raw opts ans exp anon = some payload) :
    postLoop (gwRateLimited k w) anon ownerP 1 dS dL maxR fA
        [WItem.question raw opts ans exp] 1 ⟨0, 0, 0⟩ =
      { sentCount := 1, consecFailures := 0, callNo := k + 1,
        events := (List.replicate k [Event.pollCall payload, Event.sleepRetryWait w]).flatten
          ++ [Event.pollCall payload, Event.sleepPacing dS],
        aborted := false, abortIdx := none } ∧
    sumRetryWait ((List.replicate k [Event.pollCall payload, Event.sleepRetryWait w]).flatten
      ++ [Event.pollCall payload, Event.sleepPacing dS]) = k * w ∧
    countPollCalls ((List.replicate k [Event.pollCall payload, Event.sleepRetryWait w]).flatten
      ++ [Event.pollCall payload, Event.sleepPacing dS]) = k + 1 := by
  refine ⟨?_, sumRetryWait_rl payload w dS k, countPollCalls_rl payload w dS k⟩
  have hatt := pollAttempt_rate_limited (gwRateLimited k w) payload 1 dS dL w hw
    k 0 maxR 0 hk
    (fun j hj => by simp [gwRateLimited, hj])
    (by simp [gwRateLimited])
  rw [postLoop, hq]
  dsimp only
  rw [hatt]
  dsimp only
  rw [postLoop]
  simp

/-- C2 witness: two rate-limit signals of 5 seconds, then success, with the
default ceiling of 4 attempts. -/
theorem rate_limit_retry_c2_witness :
    (postLoop (gwRateLimited 2 5) false true 1 1 2 4 3
        [WItem.question rawW optsW ansW none] 1 ⟨0, 0, 0⟩ =
      { sentCount := 1, consecFailures := 0, callNo := 3,
        events := (List.replicate 2 [Event.pollCall payloadW, Event.sleepRetryWait 5]).flatten
          ++ [Event.pollCall payloadW, Event.sleepPacing 1],
        aborted := false, abortIdx := none } ∧
    sumRetryWait ((List.replicate 2 [Event.pollCall payloadW, Event.sleepRetryWait 5]).flatten
      ++ [Event.pollCall payloadW, Event.sleepPacing 1]) = 2 * 5 ∧
    countPollCalls ((List.replicate 2 [Event.pollCall payloadW, Event.sleepRetryWait 5]).flatten
      ++ [Event.pollCall payloadW, Event.sleepPacing 1]) = 2 + 1) :=
  rate_limit_retry_c2 5 2 4 false true 1 2 3 rawW optsW ansW none payloadW
    (by decide) (by decide) (by decide)

/-- C2 (counterexample): a question that is only ever rate-limited and
would succeed on the fifth call is NOT delivered with the default ceiling
of 4 attempts — the rate-limit path consumed all four attempts, the item
failed, and the circuit-breaker counter was incremented, contradicting
"this path is unbounded and does not consume the per-item attempt ceiling
... ultimately reported as delivered". -/
theorem rate_limit_exhausts_ceiling_c2_cex :
    (post_sequence (gwRateLimited 4 5) 7 [qOK] false (some 1) jobJ 1 2 4 3 []).1.sentCount = 0 ∧
    (post_sequence (gwRateLimited 4 5) 7 [qOK] false (some 1) jobJ 1 2 4 3 []).1.consecFailures = 1 ∧
    countPollCalls (post_sequence (gwRateLimited 4 5) 7 [qOK] false (some 1) jobJ 1 2 4 3 []).1.events = 4 ∧
    sumRetryWait (post_sequence (gwRateLimited 4 5) 7 [qOK] false (some 1) jobJ 1 2 4 3 []).1.events = 20 ∧
    Event.ownerMsg (OwnerMsg.failedQuestion 1) ∈
      (post_sequence (gwRateLimited 4 5) 7 [qOK] false (some 1) jobJ 1 2 4 3 []).1.events := by
  refine ⟨by decide, by decide, by decide, by decide, by decide⟩

/-! ## Event-trace invariants of the item loop -/

/-- Every event of the retry loop is a poll call with this payload, a
rate-limit sleep, a backoff sleep, or a pacing sleep of the configured
length; never a final confirmation. -/
theorem pollAttempt_events_spec (gw : Nat → PollResp) (payload : PollPayload)
    (seqLen dS dL : Nat) :
    ∀ (remaining attempt callNo : Nat) (e : Event),
    e ∈ (pollAttempt gw payload seqLen dS dL attempt remaining callNo).events →
    isFinalConfirmEv e = false ∧
    (∀ d, e = Event.sleepPacing d → d = (if seqLen ≤ 50 then dS else dL)) ∧
    (∀ p, e = Event.pollCall p → p = payload) := by
  intro remaining
  induction remaining with
  | zero =>
    intro attempt callNo e he
    rw [pollAttempt] at he
    exact absurd he (by simp)
  | succ r ih =>
    intro attempt callNo e he
    rw [pollAttempt] at he
    cases hg : gw callNo with
    | success =>
      rw [hg] at he
      simp only [List.mem_cons, List.mem_singleton] at he
      rcases he with rfl | rfl | he
      · exact ⟨rfl, fun d hd => Event.noConfusion hd,
          fun p hp => by injection hp with h1; exact h1.symm⟩
      · exact ⟨rfl, fun d hd => by injection hd with h1; exact h1.symm,
          fun p hp => Event.noConfusion hp⟩
      · exact absurd he (by simp)
    | retryAfter ra =>
      rw [hg] at he
      simp only [List.mem_cons] at he
      rcases he with rfl | rfl | he
      · exact ⟨rfl, fun d hd => Event.noConfusion hd,
          fun p hp => by injection hp with h1; exact h1.symm⟩
      · exact ⟨rfl, fun d hd => Event.noConfusion hd, fun p hp => Event.noConfusion hp⟩
      · exact ih (attempt + 1) (callNo + 1) e he
    | failure =>
      rw [hg] at he
      simp only [List.mem_cons] at he
      rcases he with rfl | rfl | he
      · exact ⟨rfl, fun d hd => Event.noConfusion hd,
          fun p hp => by injection hp with h1; exact h1.symm⟩
      · exact ⟨rfl, fun d hd => Event.noConfusion hd, fun p hp => Event.noConfusion hp⟩
      · exact ih (attempt + 1) (callNo + 1) e he

/-- Every event of the item loop: never a final confirmation, every pacing
sleep has the configured length, and every poll call's payload was built
and vetted by `questionPayload`. -/
theorem postLoop_events_spec (gw : Nat → PollResp) (anon ownerP : Bool)
    (seqLen dS dL mR fA : Nat) :
    ∀ (seq : List WItem) (idx : Nat) (st : RunState) (e : Event),
    e ∈ (postLoop gw anon ownerP seqLen dS dL mR fA seq idx st).events →
    isFinalConfirmEv e = false ∧
    (∀ d, e = Event.sleepPacing d → d = (if seqLen ≤ 50 then dS else dL)) ∧
    (∀ p, e = Event.pollCall p →
      ∃ raw opts ans exp, questionPayload raw opts ans exp anon = some p) := by
  intro seq
  induction seq with
  | nil =>
    intro idx st e he
    rw [postLoop] at he
    exact absurd he (by simp)
  | cons item rest ih =>
    intro idx st e he
    cases item with
    | des t =>
      rw [postLoop] at he
      dsimp only at he
      simp only [List.mem_cons] at he
      rcases he with rfl | he
      · exact ⟨rfl, fun d hd => Event.noConfusion hd, fun p hp => Event.noConfusion hp⟩
      · exact ih (idx + 1) st e he
    | other =>
      rw [postLoop] at he
      exact ih (idx + 1) st e he
    | question raw opts ans exp =>
      rw [postLoop] at he
      cases hq : questionPayload raw opts ans exp anon with
      | none =>
        rw [hq] at he
        dsimp only at he
        split at he
        · dsimp only at he
          split at he
          · simp only [List.mem_singleton] at he
            subst he
            exact ⟨rfl, fun d hd => Event.noConfusion hd, fun p hp => Event.noConfusion hp⟩
          · exact absurd he (by simp)
        · exact ih (idx + 1) _ e he
      | some payload =>
        rw [hq] at he
        dsimp only at he
        split at he
        · dsimp only at he
          rw [List.mem_append] at he
          rcases he with he | he
          · obtain ⟨h1, h2, h3⟩ := pollAttempt_events_spec gw payload seqLen dS dL mR 0
              st.callNo e he
            refine ⟨h1, h2, fun p hp => ⟨raw, opts, ans, exp, ?_⟩⟩
            rw [h3 p hp]
            exact hq
          · exact ih (idx + 1) _ e he
        · split at he
          · dsimp only at he
            rw [List.mem_append, List.mem_append] at he
            rcases he with (he | he) | he
            · exact pollAttempt_events_spec gw payload seqLen dS dL mR 0 st.callNo e he
              |>.imp id (fun h => ⟨h.1, fun p hp => ⟨raw, opts, ans, exp, by rw [h.2 p hp]; exact hq⟩⟩)
            · revert he
              split
              · intro he
                simp only [List.mem_singleton] at he
                subst he
                exact ⟨rfl, fun d hd => Event.noConfusion hd, fun p hp => Event.noConfusion hp⟩
              · intro he
                exact absurd he (by simp)
            · revert he
              split
              · intro he
                simp only [List.mem_singleton] at he
                subst he
                exact ⟨rfl, fun d hd => Event.noConfusion hd, fun p hp => Event.noConfusion hp⟩
              · intro he
                exact absurd he (by simp)
          · dsimp only at he
            rw [List.mem_append, List.mem_append] at he
            rcases he with (he | he) | he
            · exact pollAttempt_events_spec gw payload seqLen dS dL mR 0 st.callNo e he
              |>.imp id (fun h => ⟨h.1, fun p hp => ⟨raw, opts, ans, exp, by rw [h.2 p hp]; exact hq⟩⟩)
            · revert he
              split
              · intro he
                simp only [List.mem_singleton] at he
                subst he
                exact ⟨rfl, fun d hd => Event.noConfusion hd, fun p hp => Event.noConfusion hp⟩
              · intro he
                exact absurd he (by simp)
            · exact ih (idx + 1) _ e he

/-- The final-confirmation block emits at most the single confirmation
message. -/
theorem finalNotify_events (jobId : Option Str) (chatId : Int) (ownerId : Option Int)
    (sent : Nat) (nj : List JobKey) :
    ∀ e ∈ (finalNotify jobId chatId ownerId sent nj).1,
      e = Event.ownerMsg (OwnerMsg.finalConfirm sent) := by
  intro e he
  unfold finalNotify at he
  split at he
  · exact absurd he (by simp)
  · split at he
    · simp only [List.mem_singleton] at he
      exact he
    · exact absurd he (by simp)

theorem countFinal_zero_of {evs : List Event} (h : ∀ e ∈ evs, isFinalConfirmEv e = false) :
    countFinalConfirm evs = 0 := by
  unfold countFinalConfirm
  rw [List.filter_eq_nil_iff.mpr (fun e he => by simp [h e he])]
  rfl

/-! ## Claim C8: the inter-item pacing delay -/

/-- C8 (amended): every pacing sleep after a successfully posted question
has the delay chosen by the TOTAL number of items in the sequence —
announcements included — not by the number of Questions: the short delay
when `len(sequence) <= 50`, the long one otherwise. -/
theorem pacing_by_item_count_c8 (gw : Nat → PollResp) (chatId : Int) (seq : List WItem)
    (anon : Bool) (ownerId : Option Int) (jobId : Option Str) (dS dL mR fA : Nat)
    (nj : List JobKey) (d : Nat)
    (he : Event.sleepPacing d ∈ (post_sequence gw chatId seq anon ownerId jobId dS dL mR fA nj).1.events) :
    d = (if seq.length ≤ 50 then dS else dL) := by
  rw [post_sequence_unfold] at he
  revert he
  split
  · intro he
    exact (postLoop_events_spec gw anon (ownerTruthy ownerId) seq.length dS dL mR fA
      seq 1 ⟨0, 0, 0⟩ _ he).2.1 d rfl
  · intro he
    dsimp only at he
    rw [List.mem_append] at he
    rcases he with he | he
    · exact (postLoop_events_spec gw anon (ownerTruthy ownerId) seq.length dS dL mR fA
        seq 1 ⟨0, 0, 0⟩ _ he).2.1 d rfl
    · exact absurd (finalNotify_events _ _ _ _ _ _ he) (by simp)

/-- C8 witness: on the 51-item sequence (50 announcements and one
question), the pacing sleep that occurs is the long one. -/
theorem pacing_by_item_count_c8_witness :
    (2 : Nat) = (if seqC8.length ≤ 50 then 1 else 2) :=
  pacing_by_item_count_c8 gwAlwaysOk 7 seqC8 false (some 1) jobJ 1 2 4 3 [] 2 (by decide)

/-- C8 (counterexample): a job with exactly one Question (plus 50
announcements) sleeps the LONG delay after the posted question, because
the code tests `len(sequence) <= 50` on all items — the claim's "short
delay when the job contains at most 50 Questions" is false. -/
theorem pacing_counts_all_items_c8_cex :
    questionCount seqC8 = 1 ∧ seqC8.length = 51 ∧
    Event.sleepPacing 2 ∈
      (post_sequence gwAlwaysOk 7 seqC8 false (some 1) jobJ 1 2 4 3 []).1.events ∧
    ¬ Event.sleepPacing 1 ∈
      (post_sequence gwAlwaysOk 7 seqC8 false (some 1) jobJ 1 2 4 3 []).1.events ∧
    (post_sequence gwAlwaysOk 7 seqC8 false (some 1) jobJ 1 2 4 3 []).1.sentCount = 1 := by
  refine ⟨by decide, by decide, by decide, by decide, by decide⟩

/-! ## Claim C10: well-formedness of every poll call -/

theorem idxOfChar_spec (c : Char) :
    ∀ (l : List Char) (i : Nat), idxOfChar c l = some i → l.get? i = some c := by
  intro l
  induction l with
  | nil => intro i h; exact Option.noConfusion h
  | cons x xs ih =>
    intro i h
    unfold idxOfChar at h
    split at h
    · rename_i hx
      injection h with h0
      subst h0
      simp [hx]
    · cases hj : idxOfChar c xs with
      | none => rw [hj] at h; exact Option.noConfusion h
      | some j =>
        rw [hj] at h
        injection h with h0
        subst h0
        simpa using ih j hj

theorem letterToIndex_spec {letter : Str} {ordered : List Char} {ci : Nat}
    (h : letterToIndex letter ordered = some ci) :
    ∃ c, (pyStrip letter).map pyToUpper = [c] ∧ idxOfChar c ordered = some ci := by
  unfold letterToIndex at h
  split at h
  · exact Option.noConfusion h
  · rename_i c heq
    exact ⟨c, heq, h⟩
  · exact Option.noConfusion h

/-- Full characterization of a vetted poll payload. -/
theorem questionPayload_spec (raw : Str) (opts : List (Char × Str)) (ans exp : Option Str)
    (anon : Bool) (p : PollPayload) (hp : questionPayload raw opts ans exp anon = some p) :
    2 ≤ p.options.length ∧
    p.correct_option_id < p.options.length ∧
    p.options = (sortedKeys opts).map (fun lbl => (dictGet? opts lbl).getD []) ∧
    List.Sorted (fun a b : Char => a ≤ b) (sortedKeys opts) ∧
    (sortedKeys opts).Perm (dictKeys opts) ∧
    (∃ c, (pyStrip ((pyStrip (ans.getD [])).map pyToUpper)).map pyToUpper = [c] ∧
      (sortedKeys opts).get? p.correct_option_id = some c) := by
  unfold questionPayload at hp
  cases hlt : letterToIndex ((pyStrip (ans.getD [])).map pyToUpper) (sortedKeys opts) with
  | none => rw [hlt] at hp; exact Option.noConfusion hp
  | some ci =>
    rw [hlt] at hp
    dsimp only at hp
    split at hp
    · exact Option.noConfusion hp
    · rename_i hlen
      injection hp with hp
      subst hp
      obtain ⟨c, hc, hidx⟩ := letterToIndex_spec hlt
      have hget := idxOfChar_spec c (sortedKeys opts) ci hidx
      have hci : ci < (sortedKeys opts).length := (List.get?_eq_some.mp hget).1
      refine ⟨by simpa using Nat.le_of_not_lt hlen, by simpa using hci, rfl,
        List.sorted_insertionSort _ _, List.perm_insertionSort _ _, c, hc, hget⟩

/-- C10: whenever the engine actually calls create-poll, the payload is
well-formed: the option list was built with one entry per declared label
in ascending label order, it has at least 2 entries, and
`correct_option_id` is in range and is the position of the (stripped,
uppercased) answer letter among the sorted labels; the invalid-question
guard makes every poll call of every run satisfy the bounds. -/
theorem poll_payload_wellformed_c10 :
    (∀ (raw : Str) (opts : List (Char × Str)) (ans exp : Option Str) (anon : Bool)
      (p : PollPayload), questionPayload raw opts ans exp anon = some p →
      2 ≤ p.options.length ∧
      p.correct_option_id < p.options.length ∧
      p.options = (sortedKeys opts).map (fun lbl => (dictGet? opts lbl).getD []) ∧
      List.Sorted (fun a b : Char => a ≤ b) (sortedKeys opts) ∧
      (sortedKeys opts).Perm (dictKeys opts) ∧
      (∃ c, (pyStrip ((pyStrip (ans.getD [])).map pyToUpper)).map pyToUpper = [c] ∧
        (sortedKeys opts).get? p.correct_option_id = some c)) ∧
    (∀ (gw : Nat → PollResp) (chatId : Int) (seq : List WItem) (anon : Bool)
      (ownerId : Option Int) (jobId : Option Str) (dS dL mR fA : Nat) (nj : List JobKey)
      (p : PollPayload),
      Event.pollCall p ∈ (post_sequence gw chatId seq anon ownerId jobId dS dL mR fA nj).1.events →
      2 ≤ p.options.length ∧ p.correct_option_id < p.options.length) := by
  constructor
  · exact questionPayload_spec
  · intro gw chatId seq anon ownerId jobId dS dL mR fA nj p he
    have hwf : ∃ raw opts ans exp, questionPayload raw opts ans exp anon = some p := by
      rw [post_sequence_unfold] at he
      revert he
      split
      · intro he
        exact (postLoop_events_spec gw anon (ownerTruthy ownerId) seq.length dS dL mR fA
          seq 1 ⟨0, 0, 0⟩ _ he).2.2 p rfl
      · intro he
        dsimp only at he
        rw [List.mem_append] at he
        rcases he with he | he
        · exact (postLoop_events_spec gw anon (ownerTruthy ownerId) seq.length dS dL mR fA
            seq 1 ⟨0, 0, 0⟩ _ he).2.2 p rfl
        · exact absurd (finalNotify_events _ _ _ _ _ _ he) (by simp)
    obtain ⟨raw, opts, ans, exp, hq⟩ := hwf
    have hx := questionPayload_spec raw opts ans exp anon p hq
    exact ⟨hx.1, hx.2.1⟩

/-- C10 witness: the characterization at the concrete question item, and
the bounds at a poll call of a concrete successful run. -/
theorem poll_payload_wellformed_c10_witness :
    (2 ≤ payloadW.options.length ∧
      payloadW.correct_option_id < payloadW.options.length ∧
      payloadW.options = (sortedKeys optsW).map (fun lbl => (dictGet? optsW lbl).getD []) ∧
      List.Sorted (fun a b : Char => a ≤ b) (sortedKeys optsW) ∧
      (sortedKeys optsW).Perm (dictKeys optsW) ∧
      (∃ c, (pyStrip ((pyStrip (ansW.getD [])).map pyToUpper)).map pyToUpper = [c] ∧
        (sortedKeys optsW).get? payloadW.correct_option_id = some c)) ∧
    (2 ≤ payloadW.options.length ∧ payloadW.correct_option_id < payloadW.options.length) :=
  ⟨poll_payload_wellformed_c10.1 rawW optsW ansW none false payloadW (by decide),
   poll_payload_wellformed_c10.2 gwAlwaysOk 7 [qOK] false (some 1) jobJ 1 2 4 3 [] payloadW
     (by decide)⟩

/-! ## Claim C5: the terminal notification -/

/-- C5 (amended): the item loop itself never sends the final confirmation;
a run that completes WITHOUT abort sends it exactly once for a fresh guard
key (when the owner id is truthy) and records the key, so a duplicate
invocation whose key is already recorded sends no second confirmation —
but a run that ABORTS returns before the guarded block: it leaves the
guard untouched and sends no final summary at all (its unguarded abort
notices repeat on every invocation, see the counterexample). -/
theorem single_terminal_notification_c5 :
    (∀ (gw : Nat → PollResp) (anon ownerP : Bool) (seqLen dS dL mR fA : Nat)
      (seq : List WItem) (idx : Nat) (st : RunState),
      countFinalConfirm (postLoop gw anon ownerP seqLen dS dL mR fA seq idx st).events = 0) ∧
    (∀ (gw : Nat → PollResp) (chatId : Int) (seq : List WItem) (anon : Bool)
      (ownerId : Option Int) (jobId : Option Str) (dS dL mR fA : Nat) (nj : List JobKey),
      (runOf gw seq anon ownerId dS dL mR fA).aborted = true →
      post_sequence gw chatId seq anon ownerId jobId dS dL mR fA nj =
        (runOf gw seq anon ownerId dS dL mR fA, nj) ∧
      countFinalConfirm (post_sequence gw chatId seq anon ownerId jobId dS dL mR fA nj).1.events = 0) ∧
    (∀ (gw : Nat → PollResp) (chatId : Int) (seq : List WItem) (anon : Bool)
      (ownerId : Option Int) (jobId : Option Str) (dS dL mR fA : Nat) (nj : List JobKey),
      (runOf gw seq anon ownerId dS dL mR fA).aborted = false →
      jobKey jobId chatId ownerId (runOf gw seq anon ownerId dS dL mR fA).sentCount ∉ nj →
      ownerTruthy ownerId = true →
      countFinalConfirm (post_sequence gw chatId seq anon ownerId jobId dS dL mR fA nj).1.events = 1 ∧
      (post_sequence gw chatId seq anon ownerId jobId dS dL mR fA nj).2 =
        nj ++ [jobKey jobId chatId ownerId (runOf gw seq anon ownerId dS dL mR fA).sentCount]) ∧
    (∀ (gw : Nat → PollResp) (chatId : Int) (seq : List WItem) (anon : Bool)
      (ownerId : Option Int) (jobId : Option Str) (dS dL mR fA : Nat) (nj : List JobKey),
      (runOf gw seq anon ownerId dS dL mR fA).aborted = false →
      jobKey jobId chatId ownerId (runOf gw seq anon ownerId dS dL mR fA).sentCount ∈ nj →
      countFinalConfirm (post_sequence gw chatId seq anon ownerId jobId dS dL mR fA nj).1.events = 0 ∧
      (post_sequence gw chatId seq anon ownerId jobId dS dL mR fA nj).2 = nj) := by
  have hzero : ∀ (gw : Nat → PollResp) (anon ownerP : Bool) (seqLen dS dL mR fA : Nat)
      (seq : List WItem) (idx : Nat) (st : RunState),
      countFinalConfirm (postLoop gw anon ownerP seqLen dS dL mR fA seq idx st).events = 0 :=
    fun gw anon ownerP seqLen dS dL mR fA seq idx st =>
      countFinal_zero_of (fun e he =>
        (postLoop_events_spec gw anon ownerP seqLen dS dL mR fA seq idx st e he).1)
  refine ⟨hzero, ?_, ?_, ?_⟩
  · intro gw chatId seq anon ownerId jobId dS dL mR fA nj hab
    rw [post_sequence_unfold, if_pos hab]
    exact ⟨rfl, hzero _ _ _ _ _ _ _ _ _ _ _⟩
  · intro gw chatId seq anon ownerId jobId dS dL mR fA nj hab hkey howner
    rw [post_sequence_unfold, if_neg (by rw [hab]; exact Bool.false_ne_true)]
    unfold finalNotify
    rw [if_neg hkey, if_pos howner]
    constructor
    · show countFinalConfirm ((runOf gw seq anon ownerId dS dL mR fA).events
        ++ [Event.ownerMsg (OwnerMsg.finalConfirm _)]) = 1
      unfold countFinalConfirm at *
      rw [List.filter_append]
      rw [List.length_append]
      have h0 := hzero gw anon (ownerTruthy ownerId) seq.length dS dL mR fA seq 1 ⟨0, 0, 0⟩
      unfold countFinalConfirm at h0
      unfold runOf
      rw [h0]
      simp [isFinalConfirmEv]
    · rfl
  · intro gw chatId seq anon ownerId jobId dS dL mR fA nj hab hkey
    rw [post_sequence_unfold, if_neg (by rw [hab]; exact Bool.false_ne_true)]
    unfold finalNotify
    rw [if_pos hkey]
    constructor
    · show countFinalConfirm ((runOf gw seq anon ownerId dS dL mR fA).events ++ []) = 0
      rw [List.append_nil]
      exact hzero _ _ _ _ _ _ _ _ _ _ _
    · rfl

/-- C5 witness: a normally completing run with a fresh key sends exactly
one final confirmation and records the key; a second invocation with the
recorded key sends none. -/
theorem single_terminal_notification_c5_witness :
    (countFinalConfirm (post_sequence gwAlwaysOk 7 [qOK] false (some 1) jobJ 1 2 4 3 []).1.events = 1 ∧
      (post_sequence gwAlwaysOk 7 [qOK] false (some 1) jobJ 1 2 4 3 []).2 =
        [] ++ [jobKey jobJ 7 (some 1) (runOf gwAlwaysOk [qOK] false (some 1) 1 2 4 3).sentCount]) ∧
    (countFinalConfirm (post_sequence gwAlwaysOk 7 [qOK] false (some 1) jobJ 1 2 4 3
        [jobKey jobJ 7 (some 1) (runOf gwAlwaysOk [qOK] false (some 1) 1 2 4 3).sentCount]).1.events = 0 ∧
      (post_sequence gwAlwaysOk 7 [qOK] false (some 1) jobJ 1 2 4 3
        [jobKey jobJ 7 (some 1) (runOf gwAlwaysOk [qOK] false (some 1) 1 2 4 3).sentCount]).2 =
        [jobKey jobJ 7 (some 1) (runOf gwAlwaysOk [qOK] false (some 1) 1 2 4 3).sentCount]) :=
  ⟨single_terminal_notification_c5.2.2.1 gwAlwaysOk 7 [qOK] false (some 1) jobJ 1 2 4 3 []
      (by decide) (by decide) (by decide),
   single_terminal_notification_c5.2.2.2 gwAlwaysOk 7 [qOK] false (some 1) jobJ 1 2 4 3
      [jobKey jobJ 7 (some 1) (runOf gwAlwaysOk [qOK] false (some 1) 1 2 4 3).sentCount]
      (by decide) (by decide)⟩

/-- C5 (counterexample): a job that aborts issues its (unguarded) abort
notice on EVERY invocation — the second run of the same job produces a
second such terminal notice — and never issues the guarded summary, so
"exactly one terminal notification per job, even under duplicate
invocation" fails on the abort path. -/
theorem duplicate_abort_notification_c5_cex :
    countAbortNotices
      (post_sequence gwAlwaysFail 7 seqThreeQ false (some 1) jobJ 1 2 4 3 []).1.events = 1 ∧
    countFinalConfirm
      (post_sequence gwAlwaysFail 7 seqThreeQ false (some 1) jobJ 1 2 4 3 []).1.events = 0 ∧
    (post_sequence gwAlwaysFail 7 seqThreeQ false (some 1) jobJ 1 2 4 3 []).2 = [] ∧
    countAbortNotices
      (post_sequence gwAlwaysFail 7 seqThreeQ false (some 1) jobJ 1 2 4 3
        (post_sequence gwAlwaysFail 7 seqThreeQ false (some 1) jobJ 1 2 4 3 []).2).1.events = 1 := by
  refine ⟨by decide, by decide, by decide, by decide⟩

/-! ## Claim C3: the circuit breaker -/

theorem pollAttempt_all_fail (payload : PollPayload) (seqLen dS dL : Nat) :
    ∀ (remaining attempt callNo : Nat),
      (pollAttempt gwAlwaysFail payload seqLen dS dL attempt remaining callNo).success = false := by
  intro remaining
  induction remaining with
  | zero => intro attempt callNo; rw [pollAttempt]
  | succ r ih =>
    intro attempt callNo
    rw [pollAttempt]
    simp only [gwAlwaysFail]
    exact ih (attempt + 1) (callNo + 1)

theorem posOfQuestion_ge : ∀ (seq : List WItem) (k base p : Nat),
    posOfQuestion seq k base = some p → base ≤ p := by
  intro seq
  induction seq with
  | nil => intro k base p h; exact Option.noConfusion h
  | cons it rest ih =>
    intro k base p h
    unfold posOfQuestion at h
    split at h
    · split at h
      · injection h with h0; omega
      · have := ih (k - 1) (base + 1) p h; omega
    · have := ih k (base + 1) p h; omega

theorem questionCount_cons_q (raw : Str) (opts : List (Char × Str)) (ans exp : Option Str)
    (rest : List WItem) :
    questionCount (WItem.question raw opts ans exp :: rest) = questionCount rest + 1 := by
  unfold questionCount
  simp [isQuestion, List.filter]

theorem questionCount_cons_not (it : WItem) (rest : List WItem) (h : isQuestion it = false) :
    questionCount (it :: rest) = questionCount rest := by
  unfold questionCount
  simp [List.filter, h]

/-- With a gateway failing every call and the default threshold 3, the item
loop aborts exactly at the question that brings the consecutive-failure
count to 3, and the items after it are never touched: the run equals the
run on the truncated sequence. -/
theorem allfail_aborts (anon ownerP : Bool) (seqLen dS dL mR : Nat) :
    ∀ (seq : List WItem) (k idx : Nat) (st : RunState),
    0 < k → st.consecFailures + k = 3 → k ≤ questionCount seq →
    ∃ p, posOfQuestion seq k idx = some p ∧
      postLoop gwAlwaysFail anon ownerP seqLen dS dL mR 3 seq idx st =
        postLoop gwAlwaysFail anon ownerP seqLen dS dL mR 3 (seq.take (p + 1 - idx)) idx st ∧
      (postLoop gwAlwaysFail anon ownerP seqLen dS dL mR 3 seq idx st).aborted = true ∧
      (postLoop gwAlwaysFail anon ownerP seqLen dS dL mR 3 seq idx st).abortIdx = some p ∧
      (postLoop gwAlwaysFail anon ownerP seqLen dS dL mR 3 seq idx st).sentCount = st.sentCount := by
  intro seq
  induction seq with
  | nil =>
    intro k idx st hk h3 hle
    exfalso
    unfold questionCount at hle
    simp at hle
    omega
  | cons it rest ih =>
    intro k idx st hk h3 hle
    cases it with
    | des t =>
      have hle' : k ≤ questionCount rest := by
        rwa [questionCount_cons_not (WItem.des t) rest rfl] at hle
      obtain ⟨p, hp, heq, hab, hai, hsent⟩ := ih k (idx + 1) st hk h3 hle'
      have hbase : idx + 1 ≤ p := posOfQuestion_ge rest k (idx + 1) p hp
      have htake : (WItem.des t :: rest).take (p + 1 - idx)
          = WItem.des t :: rest.take (p + 1 - (idx + 1)) := by
        rw [show p + 1 - idx = (p + 1 - (idx + 1)) + 1 by omega, List.take_succ_cons]
      refine ⟨p, ?_, ?_, ?_, ?_, ?_⟩
      · unfold posOfQuestion
        simpa [isQuestion] using hp
      · rw [htake, postLoop, postLoop, heq]
      · rw [postLoop]; dsimp only; exact hab
      · rw [postLoop]; dsimp only; exact hai
      · rw [postLoop]; dsimp only; exact hsent
    | other =>
      have hle' : k ≤ questionCount rest := by
        rwa [questionCount_cons_not WItem.other rest rfl] at hle
      obtain ⟨p, hp, heq, hab, hai, hsent⟩ := ih k (idx + 1) st hk h3 hle'
      have hbase : idx + 1 ≤ p := posOfQuestion_ge rest k (idx + 1) p hp
      have htake : (WItem.other :: rest).take (p + 1 - idx)
          = WItem.other :: rest.take (p + 1 - (idx + 1)) := by
        rw [show p + 1 - idx = (p + 1 - (idx + 1)) + 1 by omega, List.take_succ_cons]
      refine ⟨p, ?_, ?_, ?_, ?_, ?_⟩
      · unfold posOfQuestion
        simpa [isQuestion] using hp
      · rw [htake, postLoop, postLoop, heq]
      · rw [postLoop]; exact hab
      · rw [postLoop]; exact hai
      · rw [postLoop]; exact hsent
    | question raw opts ans exp =>
      by_cases hk1 : k = 1
      · subst hk1
        have hcf : st.consecFailures = 2 := by omega
        have hpos : posOfQuestion (WItem.question raw opts ans exp :: rest) 1 idx = some idx := by
          unfold posOfQuestion
          simp [isQuestion]
        have htake : (WItem.question raw opts ans exp :: rest).take (idx + 1 - idx)
            = [WItem.question raw opts ans exp] := by
          rw [show idx + 1 - idx = 1 by omega]
          rfl
        have hcond : (3 : Nat) ≤ st.consecFailures + 1 := by omega
        refine ⟨idx, hpos, ?_, ?_, ?_, ?_⟩
        · cases hqp : questionPayload raw opts ans exp anon with
          | none =>
            rw [htake, postLoop, postLoop, hqp]
            dsimp only
            simp only [if_pos hcond]
          | some payload =>
            have hsf := pollAttempt_all_fail payload seqLen dS dL mR 0 st.callNo
            rw [htake, postLoop, postLoop, hqp]
            dsimp only
            simp only [hsf, Bool.false_eq_true, if_false, if_pos hcond]
        · cases hqp : questionPayload raw opts ans exp anon with
          | none =>
            rw [postLoop, hqp]
            dsimp only
            simp only [if_pos hcond]
          | some payload =>
            have hsf := pollAttempt_all_fail payload seqLen dS dL mR 0 st.callNo
            rw [postLoop, hqp]
            dsimp only
            simp only [hsf, Bool.false_eq_true, if_false, if_pos hcond]
        · cases hqp : questionPayload raw opts ans exp anon with
          | none =>
            rw [postLoop, hqp]
            dsimp only
            simp only [if_pos hcond]
          | some payload =>
            have hsf := pollAttempt_all_fail payload seqLen dS dL mR 0 st.callNo
            rw [postLoop, hqp]
            dsimp only
            simp only [hsf, Bool.false_eq_true, if_false, if_pos hcond]
        · cases hqp : questionPayload raw opts ans exp anon with
          | none =>
            rw [postLoop, hqp]
            dsimp only
            simp only [if_pos hcond]
          | some payload =>
            have hsf := pollAttempt_all_fail payload seqLen dS dL mR 0 st.callNo
            rw [postLoop, hqp]
            dsimp only
            simp only [hsf, Bool.false_eq_true, if_false, if_pos hcond]
      · have hk2 : 2 ≤ k := by omega
        have hle' : k - 1 ≤ questionCount rest := by
          rw [questionCount_cons_q] at hle
          omega
        have hposeq : posOfQuestion (WItem.question raw opts ans exp :: rest) k idx
            = posOfQuestion rest (k - 1) (idx + 1) := by
          conv_lhs => rw [posOfQuestion]
          simp [isQuestion, hk1]
        have hncond : ¬ ((3 : Nat) ≤ st.consecFailures + 1) := by omega
        cases hqp : questionPayload raw opts ans exp anon with
        | none =>
          obtain ⟨p, hp, heq, hab, hai, hsent⟩ :=
            ih (k - 1) (idx + 1) { st with consecFailures := st.consecFailures + 1 }
              (by omega) (by dsimp only; omega) hle'
          have hbase : idx + 1 ≤ p := posOfQuestion_ge rest (k - 1) (idx + 1) p hp
          have htake : (WItem.question raw opts ans exp :: rest).take (p + 1 - idx)
              = WItem.question raw opts ans exp :: rest.take (p + 1 - (idx + 1)) := by
            rw [show p + 1 - idx = (p + 1 - (idx + 1)) + 1 by omega, List.take_succ_cons]
          refine ⟨p, by rw [hposeq]; exact hp, ?_, ?_, ?_, ?_⟩
          · rw [htake, postLoop, postLoop, hqp]
            dsimp only
            simp only [if_neg hncond]
            exact heq
          · rw [postLoop, hqp]
            dsimp only
            simp only [if_neg hncond]
            exact hab
          · rw [postLoop, hqp]
            dsimp only
            simp only [if_neg hncond]
            exact hai
          · rw [postLoop, hqp]
            dsimp only
            simp only [if_neg hncond]
            exact hsent
        | some payload =>
          have hsf := pollAttempt_all_fail payload seqLen dS dL mR 0 st.callNo
          obtain ⟨p, hp, heq, hab, hai, hsent⟩ :=
            ih (k - 1) (idx + 1)
              { st with consecFailures := st.consecFailures + 1,
                        callNo := (pollAttempt gwAlwaysFail payload seqLen dS dL 0 mR st.callNo).callNo }
              (by omega) (by dsimp only; omega) hle'
          have hbase : idx + 1 ≤ p := posOfQuestion_ge rest (k - 1) (idx + 1) p hp
          have htake : (WItem.question raw opts ans exp :: rest).take (p + 1 - idx)
              = WItem.question raw opts ans exp :: rest.take (p + 1 - (idx + 1)) := by
            rw [show p + 1 - idx = (p + 1 - (idx + 1)) + 1 by omega, List.take_succ_cons]
          refine ⟨p, by rw [hposeq]; exact hp, ?_, ?_, ?_, ?_⟩
          · rw [htake, postLoop, postLoop, hqp]
            dsimp only
            simp only [hsf, Bool.false_eq_true, if_false, if_neg hncond]
            rw [heq]
          · rw [postLoop, hqp]
            dsimp only
            simp only [hsf, Bool.false_eq_true, if_false, if_neg hncond]
            exact hab
          · rw [postLoop, hqp]
            dsimp only
            simp only [hsf, Bool.false_eq_true, if_false, if_neg hncond]
            exact hai
          · rw [postLoop, hqp]
            dsimp only
            simp only [hsf, Bool.false_eq_true, if_false, if_neg hncond]
            exact hsent

/-- C3: the consecutive-failed-question counter is reset to zero on any
question success (first conjunct: after a successful post the loop
continues with the counter at 0), and with the default threshold 3 and a
gateway failing every call, any sequence with at least 3 questions aborts
exactly at the 3rd question: the run equals the run on the sequence
truncated right after that question (so nothing later is posted or even
attempted), it reports the abort at that question's index, and its
sent-count is 0. -/
theorem circuit_breaker_c3 :
    (∀ (gw : Nat → PollResp) (anon ownerP : Bool) (seqLen dS dL mR fA : Nat)
      (raw : Str) (opts : List (Char × Str)) (ans exp : Option Str) (payload : PollPayload)
      (seq : List WItem) (idx : Nat) (st : RunState),
      questionPayload raw opts ans exp anon = some payload →
      (pollAttempt gw payload seqLen dS dL 0 mR st.callNo).success = true →
      postLoop gw anon ownerP seqLen dS dL mR fA (WItem.question raw opts ans exp :: seq) idx st =
        { postLoop gw anon ownerP seqLen dS dL mR fA seq (idx + 1)
            ⟨st.sentCount + 1, 0, (pollAttempt gw payload seqLen dS dL 0 mR st.callNo).callNo⟩ with
          events := (pollAttempt gw payload seqLen dS dL 0 mR st.callNo).events
            ++ (postLoop gw anon ownerP seqLen dS dL mR fA seq (idx + 1)
                ⟨st.sentCount + 1, 0,
                  (pollAttempt gw payload seqLen dS dL 0 mR st.callNo).callNo⟩).events }) ∧
    (∀ (anon ownerP : Bool) (seqLen dS dL mR : Nat) (seq : List WItem) (p : Nat),
      3 ≤ questionCount seq →
      posOfQuestion seq 3 1 = some p →
      postLoop gwAlwaysFail anon ownerP seqLen dS dL mR 3 seq 1 ⟨0, 0, 0⟩ =
        postLoop gwAlwaysFail anon ownerP seqLen dS dL mR 3 (seq.take p) 1 ⟨0, 0, 0⟩ ∧
      (postLoop gwAlwaysFail anon ownerP seqLen dS dL mR 3 seq 1 ⟨0, 0, 0⟩).aborted = true ∧
      (postLoop gwAlwaysFail anon ownerP seqLen dS dL mR 3 seq 1 ⟨0, 0, 0⟩).abortIdx = some p ∧
      (postLoop gwAlwaysFail anon ownerP seqLen dS dL mR 3 seq 1 ⟨0, 0, 0⟩).sentCount = 0) := by
  constructor
  · intro gw anon ownerP seqLen dS dL mR fA raw opts ans exp payload seq idx st hq hsucc
    rw [postLoop, hq]
    dsimp only
    rw [hsucc]
    rfl
  · intro anon ownerP seqLen dS dL mR seq p h3 hpos
    obtain ⟨p', hp', heq, hab, hai, hsent⟩ :=
      allfail_aborts anon ownerP seqLen dS dL mR seq 3 1 ⟨0, 0, 0⟩ (by omega) rfl h3
    rw [hpos] at hp'
    injection hp' with hp'
    subst hp'
    rw [show p + 1 - 1 = p by omega] at heq
    exact ⟨heq, hab, hai, hsent⟩

/-- C3 witness: the reset rule at a concrete successful question, and the
abort-at-the-3rd-question behaviour on the concrete three-question
sequence with an always-failing gateway. -/
theorem circuit_breaker_c3_witness :
    (postLoop gwAlwaysOk false true 1 1 2 4 3 (WItem.question rawW optsW ansW none :: []) 1 ⟨0, 0, 0⟩ =
      { postLoop gwAlwaysOk false true 1 1 2 4 3 [] (1 + 1)
          ⟨(0 : Nat) + 1, 0, (pollAttempt gwAlwaysOk payloadW 1 1 2 0 4 0).callNo⟩ with
        events := (pollAttempt gwAlwaysOk payloadW 1 1 2 0 4 0).events
          ++ (postLoop gwAlwaysOk false true 1 1 2 4 3 [] (1 + 1)
              ⟨(0 : Nat) + 1, 0, (pollAttempt gwAlwaysOk payloadW 1 1 2 0 4 0).callNo⟩).events }) ∧
    (postLoop gwAlwaysFail false true 3 1 2 4 3 seqThreeQ 1 ⟨0, 0, 0⟩ =
      postLoop gwAlwaysFail false true 3 1 2 4 3 (seqThreeQ.take 3) 1 ⟨0, 0, 0⟩ ∧
      (postLoop gwAlwaysFail false true 3 1 2 4 3 seqThreeQ 1 ⟨0, 0, 0⟩).aborted = true ∧
      (postLoop gwAlwaysFail false true 3 1 2 4 3 seqThreeQ 1 ⟨0, 0, 0⟩).abortIdx = some 3 ∧
      (postLoop gwAlwaysFail false true 3 1 2 4 3 seqThreeQ 1 ⟨0, 0, 0⟩).sentCount = 0) :=
  ⟨circuit_breaker_c3.1 gwAlwaysOk false true 1 1 2 4 3 rawW optsW ansW none payloadW [] 1
      ⟨0, 0, 0⟩ (by decide) (by decide),
   circuit_breaker_c3.2 false true 3 1 2 4 seqThreeQ 3 (by decide) (by decide)⟩

end QuizBot
